import Mathlib

set_option maxHeartbeats 1000000
set_option linter.unusedSectionVars false

/-!
Shallow embedding of `src/hmmlearn.py` (Viterbi decoder for a discrete HMM,
plus its input validator), and proofs of the spec claims about it.

Python dicts are modelled as association lists (`Dict`), dict subscription as
`dlookup` (a missing key is a `KeyError`), Python floats as exact rationals
`ℚ`, and the dynamically-typed `observations` / `states` arguments as
`SeqOrScalar` (either a proper list/tuple or some non-sequence scalar).
Every Python runtime failure the code can raise is modelled in `Except PyErr`.
-/

namespace HMM

/-- A Python argument that is either a proper sequence (list or tuple),
carrying its elements, or some other (scalar, non-sequence) object. -/
inductive SeqOrScalar (α : Type) where
  | seq (l : List α)
  | scalar
deriving DecidableEq

def SeqOrScalar.isSeq {α : Type} : SeqOrScalar α → Bool
  | .seq _ => true
  | .scalar => false

/-- Runtime errors of the Python code: `assert cond, msg` raises
`AssertionError(msg)` (the spec's `ValidationError`), a missing dict key
raises `KeyError`, an out-of-range index raises `IndexError`, `max` of an
empty iterable raises `ValueError`, and iterating or subscripting a
non-sequence raises `TypeError`. -/
inductive PyErr where
  | assertionError (msg : String)
  | keyError
  | indexError
  | valueError
  | typeError
deriving DecidableEq

/-- A Python dict, modelled as an association list. -/
abbrev Dict (κ ν : Type) := List (κ × ν)

def dlookup {κ ν : Type} [DecidableEq κ] : Dict κ ν → κ → Option ν
  | [], _ => none
  | (k, v) :: rest, key => if k = key then some v else dlookup rest key

/-- `d.keys()`. -/
def dkeys {κ ν : Type} (d : Dict κ ν) : List κ := d.map Prod.fst

/-- Python's `set(a) == set(b)` on two lists: the two lists have the same
elements (mutual membership). -/
def keysMatch {α : Type} [DecidableEq α] (a b : List α) : Bool :=
  a.all (fun x => x ∈ b) && b.all (fun x => x ∈ a)

section Embedding

variable {σ γ : Type} [DecidableEq σ] [LinearOrder σ] [DecidableEq γ]

/-- `all(set(d[s].keys()) == set(target) for s in sts)`: lazily walks `sts`,
raising `KeyError` on a missing outer key and short-circuiting on the
first `False`, exactly like Python's `all` over a generator. -/
def allKeysEq {κ : Type} [DecidableEq κ] (d : Dict σ (Dict κ ℚ)) (target : List κ) :
    List σ → Except PyErr Bool
  | [] => .ok true
  | s :: rest =>
    match dlookup d s with
    | none => .error .keyError
    | some inner =>
      if keysMatch (dkeys inner) target then allKeysEq d target rest else .ok false

/-- `validate_input` from `src/hmmlearn.py` (lines 78–103): the seven
sequential `assert` checks, in source order. -/
def validate_input (observations : SeqOrScalar γ) (states : SeqOrScalar σ)
    (start_prob : Dict σ ℚ) (trans_prob : Dict σ (Dict σ ℚ))
    (emit_prob : Dict σ (Dict γ ℚ)) : Except PyErr Unit :=
  match observations with
  | .scalar => .error (.assertionError "Observations must be a list or tuple.")
  | .seq obsL =>
    match states with
    | .scalar => .error (.assertionError "States must be a list or tuple.")
    | .seq stsL =>
      if !keysMatch (dkeys start_prob) stsL then
        .error (.assertionError "Start probabilities must match states.")
      else if !keysMatch (dkeys trans_prob) stsL then
        .error (.assertionError "Transition probabilities must match states.")
      else
        match allKeysEq trans_prob stsL stsL with
        | .error e => .error e
        | .ok false =>
          .error (.assertionError "Transition probabilities must be defined for all states.")
        | .ok true =>
          if !keysMatch (dkeys emit_prob) stsL then
            .error (.assertionError "Emission probabilities must match states.")
          else
            match allKeysEq emit_prob obsL stsL with
            | .error e => .error e
            | .ok false =>
              .error (.assertionError "Emission probabilities must be defined for all observations.")
            | .ok true => .ok ()

/-- Python's `>` on `(probability, state)` tuples: lexicographic,
first on the probability, then on the state label. -/
def pairGtB (a b : ℚ × σ) : Bool :=
  decide (b.1 < a.1) || (decide (a.1 = b.1) && decide (b.2 < a.2))

/-- The fold performed by Python's `max`: keep the current maximum,
replace it only when a later element is strictly greater. -/
def runMax (x : ℚ × σ) (xs : List (ℚ × σ)) : ℚ × σ :=
  xs.foldl (fun acc y => if pairGtB y acc then y else acc) x

/-- Python's `max` over an iterable of `(probability, state)` tuples
(lines 50–53 and 66 of the source): `ValueError` when empty. -/
def pyMax : List (ℚ × σ) → Except PyErr (ℚ × σ)
  | [] => .error .valueError
  | x :: xs => .ok (runMax x xs)

/-- The initialization loop (t = 0, source lines 33–39): for each state
`s` in order, `V[0][s] = start_prob[s] * emit_prob[s][observations[0]]`
and `path[s] = [s]`, with the Python evaluation order of the lookups. -/
def initVPath (obs : List γ) (start_prob : Dict σ ℚ) (emit_prob : Dict σ (Dict γ ℚ)) :
    List σ → Except PyErr (Dict σ ℚ × Dict σ (List σ))
  | [] => .ok ([], [])
  | s :: rest =>
    match dlookup start_prob s with
    | none => .error .keyError
    | some sp =>
      match dlookup emit_prob s with
      | none => .error .keyError
      | some ed =>
        match obs.head? with
        | none => .error .indexError
        | some o0 =>
          match dlookup ed o0 with
          | none => .error .keyError
          | some ep =>
            match initVPath obs start_prob emit_prob rest with
            | .error e => .error e
            | .ok (v, p) => .ok ((s, sp * ep) :: v, (s, [s]) :: p)

/-- The generator of line 50–53: the list of candidate pairs
`(V[t-1][p] * trans_prob[p][c] * emit_prob[c][o], p)` for `p` ranging
over the states, in order. -/
def candidates (Vprev : Dict σ ℚ) (trans_prob : Dict σ (Dict σ ℚ))
    (emit_prob : Dict σ (Dict γ ℚ)) (c : σ) (o : γ) :
    List σ → Except PyErr (List (ℚ × σ))
  | [] => .ok []
  | p :: rest =>
    match dlookup Vprev p with
    | none => .error .keyError
    | some vp =>
      match dlookup trans_prob p with
      | none => .error .keyError
      | some tp =>
        match dlookup tp c with
        | none => .error .keyError
        | some tpc =>
          match dlookup emit_prob c with
          | none => .error .keyError
          | some ec =>
            match dlookup ec o with
            | none => .error .keyError
            | some eco =>
              match candidates Vprev trans_prob emit_prob c o rest with
              | .error e => .error e
              | .ok tail => .ok ((vp * tpc * eco, p) :: tail)

/-- The inner loop over `current_state` (source lines 48–60): builds the
new `V[t]` row and the new path table, iterating over `cur` (the as-yet
unprocessed current states) while candidates range over `allSts`. -/
def stepStates (Vprev : Dict σ ℚ) (path : Dict σ (List σ))
    (trans_prob : Dict σ (Dict σ ℚ)) (emit_prob : Dict σ (Dict γ ℚ))
    (o : γ) (allSts : List σ) :
    List σ → Except PyErr (Dict σ ℚ × Dict σ (List σ))
  | [] => .ok ([], [])
  | c :: rest =>
    match candidates Vprev trans_prob emit_prob c o allSts with
    | .error e => .error e
    | .ok cands =>
      match pyMax cands with
      | .error e => .error e
      | .ok (mp, prev) =>
        match dlookup path prev with
        | none => .error .keyError
        | some pp =>
          match stepStates Vprev path trans_prob emit_prob o allSts rest with
          | .error e => .error e
          | .ok (v, np) => .ok ((c, mp) :: v, (c, pp ++ [c]) :: np)

/-- The outer loop over time steps `t = 1 .. T-1` (source lines 42–63):
consumes the remaining observations one at a time, carrying the previous
`V` row and the path table. -/
def viterbiLoop (sts : List σ) (trans_prob : Dict σ (Dict σ ℚ))
    (emit_prob : Dict σ (Dict γ ℚ)) :
    List γ → Dict σ ℚ → Dict σ (List σ) → Except PyErr (Dict σ ℚ × Dict σ (List σ))
  | [], Vprev, path => .ok (Vprev, path)
  | o :: rest, Vprev, path =>
    match stepStates Vprev path trans_prob emit_prob o sts sts with
    | .error e => .error e
    | .ok (vt, newPath) => viterbiLoop sts trans_prob emit_prob rest vt newPath

/-- The generator of line 66: `(V[-1][state], state) for state in states`. -/
def finalCandidates (Vlast : Dict σ ℚ) : List σ → Except PyErr (List (ℚ × σ))
  | [] => .ok []
  | s :: rest =>
    match dlookup Vlast s with
    | none => .error .keyError
    | some v =>
      match finalCandidates Vlast rest with
      | .error e => .error e
      | .ok tail => .ok ((v, s) :: tail)

/-- The body of `viterbi` after validation (source lines 28–75),
for sequence-valued `observations` and `states`. -/
def viterbiRun (obs : List γ) (sts : List σ) (start_prob : Dict σ ℚ)
    (trans_prob : Dict σ (Dict σ ℚ)) (emit_prob : Dict σ (Dict γ ℚ)) :
    Except PyErr (ℚ × List σ) :=
  match initVPath obs start_prob emit_prob sts with
  | .error e => .error e
  | .ok (v0, path0) =>
    match viterbiLoop sts trans_prob emit_prob (obs.drop 1) v0 path0 with
    | .error e => .error e
    | .ok (vlast, path) =>
      match finalCandidates vlast sts with
      | .error e => .error e
      | .ok fc =>
        match pyMax fc with
        | .error e => .error e
        | .ok (max_prob, final_state) =>
          match dlookup path final_state with
          | none => .error .keyError
          | some bp => .ok (max_prob, bp)

/-- `viterbi` from `src/hmmlearn.py` (lines 1–75): validate, then run the
dynamic program. Iterating or subscripting a non-sequence argument would
raise `TypeError` (unreachable, since validation already checked both). -/
def viterbi (observations : SeqOrScalar γ) (states : SeqOrScalar σ)
    (start_prob : Dict σ ℚ) (trans_prob : Dict σ (Dict σ ℚ))
    (emit_prob : Dict σ (Dict γ ℚ)) : Except PyErr (ℚ × List σ) :=
  match validate_input observations states start_prob trans_prob emit_prob with
  | .error e => .error e
  | .ok _ =>
    match states with
    | .scalar => .error .typeError
    | .seq sts =>
      match observations with
      | .scalar => .error .typeError
      | .seq obs => viterbiRun obs sts start_prob trans_prob emit_prob

end Embedding

section SpecDefs

variable {σ γ : Type} [DecidableEq σ] [LinearOrder σ] [DecidableEq γ]

/-- Total dict lookup, defaulting to `0`: used on the specification side,
where validation guarantees the key is present. -/
def q1 (d : Dict σ ℚ) (s : σ) : ℚ := (dlookup d s).getD 0

/-- Total two-level dict lookup, defaulting to `0`. -/
def q2 {κ : Type} [DecidableEq κ] (d : Dict σ (Dict κ ℚ)) (s : σ) (k : κ) : ℚ :=
  (dlookup ((dlookup d s).getD []) k).getD 0

/-- All state sequences of length `n` over `sts`: the
`|states| ^ |observations|` candidates of the spec's optimality property. -/
def allSeqs (sts : List σ) : ℕ → List (List σ)
  | 0 => [[]]
  | n + 1 => sts.flatMap (fun s => (allSeqs sts n).map (fun q => s :: q))

/-- `∏ over t > 0 of trans_prob[s(t-1)][s(t)] * emit_prob[s(t)][o(t)]`,
given the previous state `p`, the remaining observations and the remaining
states. Zero on length mismatch (never hit for sequences in `allSeqs`). -/
def trailProb (trans_prob : Dict σ (Dict σ ℚ)) (emit_prob : Dict σ (Dict γ ℚ)) :
    σ → List γ → List σ → ℚ
  | _, [], [] => 1
  | p, o :: os, s :: ss => q2 trans_prob p s * q2 emit_prob s o * trailProb trans_prob emit_prob s os ss
  | _, _, _ => 0

/-- The spec's probability of one full state sequence:
`start_prob[s0] * emit_prob[s0][o0] * ∏ over t > 0 of
trans_prob[s(t-1)][s(t)] * emit_prob[s(t)][o(t)]`. -/
def seqProb (start_prob : Dict σ ℚ) (trans_prob : Dict σ (Dict σ ℚ))
    (emit_prob : Dict σ (Dict γ ℚ)) : List γ → List σ → ℚ
  | o :: os, s :: ss =>
    q1 start_prob s * q2 emit_prob s o * trailProb trans_prob emit_prob s os ss
  | _, _ => 0

/-- The maximum (with its argmax) of `f` over the nonempty state list
`s0 :: rest`, chosen exactly as the Python `max` over `(f p, p)` pairs. -/
def rowMax (f : σ → ℚ) (s0 : σ) (rest : List σ) : ℚ × σ :=
  runMax (f s0, s0) (rest.map (fun p => (f p, p)))

/-- `V[0][s]` as a function: `start_prob[s] * emit_prob[s][observations[0]]`. -/
def pvInit (start_prob : Dict σ ℚ) (emit_prob : Dict σ (Dict γ ℚ)) (o : γ) (s : σ) : ℚ :=
  q1 start_prob s * q2 emit_prob s o

/-- One time step of the recurrence, in pure (function) form: the new `V`
row and path table, for states `s0 :: rest` and observation `o`. -/
def pstep (s0 : σ) (rest : List σ) (trans_prob : Dict σ (Dict σ ℚ))
    (emit_prob : Dict σ (Dict γ ℚ)) (o : γ) (vp : (σ → ℚ) × (σ → List σ)) :
    (σ → ℚ) × (σ → List σ) :=
  (fun c => (rowMax (fun p => vp.1 p * q2 trans_prob p c * q2 emit_prob c o) s0 rest).1,
   fun c => vp.2 (rowMax (fun p => vp.1 p * q2 trans_prob p c * q2 emit_prob c o) s0 rest).2 ++ [c])

/-- The recurrence iterated over the remaining observations, in pure form. -/
def ploop (s0 : σ) (rest : List σ) (trans_prob : Dict σ (Dict σ ℚ))
    (emit_prob : Dict σ (Dict γ ℚ)) :
    List γ → (σ → ℚ) × (σ → List σ) → (σ → ℚ) × (σ → List σ)
  | [], vp => vp
  | o :: os, vp => ploop s0 rest trans_prob emit_prob os (pstep s0 rest trans_prob emit_prob o vp)

/-- The whole decode in pure form, for nonempty observations `o0 :: os`
and nonempty states `s0 :: rest`: what `viterbi` returns when validation
passes and no runtime error occurs. -/
def pureViterbi (o0 : γ) (os : List γ) (s0 : σ) (rest : List σ)
    (start_prob : Dict σ ℚ) (trans_prob : Dict σ (Dict σ ℚ))
    (emit_prob : Dict σ (Dict γ ℚ)) : ℚ × List σ :=
  let vp := ploop s0 rest trans_prob emit_prob os
    (fun s => pvInit start_prob emit_prob o0 s, fun s => [s])
  let m := rowMax vp.1 s0 rest
  (m.1, vp.2 m.2)

/-- Check 1 of §4.1: `observations` is a sequence. -/
def chk1 (observations : SeqOrScalar γ) : Bool := observations.isSeq

/-- Check 2 of §4.1: `states` is a sequence. -/
def chk2 (states : SeqOrScalar σ) : Bool := states.isSeq

/-- Check 3 of §4.1: `set(start_prob.keys()) == set(states)` (vacuous when
`states` is not a sequence — check 2 already fails then). -/
def chk3 (states : SeqOrScalar σ) (start_prob : Dict σ ℚ) : Bool :=
  match states with
  | .scalar => true
  | .seq stsL => keysMatch (dkeys start_prob) stsL

/-- Check 4 of §4.1: `set(trans_prob.keys()) == set(states)`. -/
def chk4 (states : SeqOrScalar σ) (trans_prob : Dict σ (Dict σ ℚ)) : Bool :=
  match states with
  | .scalar => true
  | .seq stsL => keysMatch (dkeys trans_prob) stsL

/-- Check 5 of §4.1: every present inner key set of `trans_prob` at a state
equals the state set (a missing outer key is check 4's business). -/
def chk5 (states : SeqOrScalar σ) (trans_prob : Dict σ (Dict σ ℚ)) : Bool :=
  match states with
  | .scalar => true
  | .seq stsL => stsL.all (fun s =>
      match dlookup trans_prob s with
      | none => true
      | some inner => keysMatch (dkeys inner) stsL)

/-- Check 6 of §4.1: `set(emit_prob.keys()) == set(states)`. -/
def chk6 (states : SeqOrScalar σ) (emit_prob : Dict σ (Dict γ ℚ)) : Bool :=
  match states with
  | .scalar => true
  | .seq stsL => keysMatch (dkeys emit_prob) stsL

/-- Check 7 of §4.1: every present inner key set of `emit_prob` at a state
equals the set of observed symbols. -/
def chk7 (observations : SeqOrScalar γ) (states : SeqOrScalar σ)
    (emit_prob : Dict σ (Dict γ ℚ)) : Bool :=
  match observations, states with
  | .seq obsL, .seq stsL => stsL.all (fun s =>
      match dlookup emit_prob s with
      | none => true
      | some inner => keysMatch (dkeys inner) obsL)
  | _, _ => true

/-- Every state of `sts` is a key of the table `d`. -/
def keyPresent {κ ν : Type} [DecidableEq κ] (d : Dict κ ν) (sts : List κ) : Prop :=
  ∀ s ∈ sts, ∃ v, dlookup d s = some v

/-- Every state of `sts` is an outer key of the nested table `d`, and every
element of `ks` is a key of each inner table. -/
def ddPresent {κ : Type} [DecidableEq κ] (d : Dict σ (Dict κ ℚ)) (sts : List σ)
    (ks : List κ) : Prop :=
  ∀ s ∈ sts, ∃ inner, dlookup d s = some inner ∧ ∀ k ∈ ks, ∃ w, dlookup inner k = some w

/-- The non-strict order on `(probability, state)` pairs corresponding to
Python's tuple comparison: `a` does not exceed `b` lexicographically. -/
def pairLe (a b : ℚ × σ) : Prop := a.1 ≤ b.1 ∧ (a.1 = b.1 → a.2 ≤ b.2)

/-- All values of a probability table are nonnegative. -/
def nonnegD {κ : Type} (d : Dict κ ℚ) : Prop := ∀ kv ∈ d, 0 ≤ kv.2

/-- All values of a nested probability table are nonnegative. -/
def nonnegDD {κ κ' : Type} (d : Dict κ (Dict κ' ℚ)) : Prop := ∀ kv ∈ d, nonnegD kv.2

/-- All values of a probability table lie in `[0, 1]`. -/
def boundedD {κ : Type} (d : Dict κ ℚ) : Prop := ∀ kv ∈ d, 0 ≤ kv.2 ∧ kv.2 ≤ 1

/-- All values of a nested probability table lie in `[0, 1]`. -/
def boundedDD {κ κ' : Type} (d : Dict κ (Dict κ' ℚ)) : Prop := ∀ kv ∈ d, boundedD kv.2

end SpecDefs

namespace Ex

/-- The example observations of `src/hmmlearn.py` line 107. -/
def observations : List String := ["walk", "shop", "clean"]

/-- The example states of line 108. -/
def states : List String := ["Rainy", "Sunny"]

/-- The example start probabilities of line 109. -/
def start_prob : Dict String ℚ := [("Rainy", 6/10), ("Sunny", 4/10)]

/-- The example transition probabilities of lines 110–113. -/
def trans_prob : Dict String (Dict String ℚ) :=
  [("Rainy", [("Rainy", 7/10), ("Sunny", 3/10)]),
   ("Sunny", [("Rainy", 4/10), ("Sunny", 6/10)])]

/-- The example emission probabilities of lines 114–117. -/
def emit_prob : Dict String (Dict String ℚ) :=
  [("Rainy", [("walk", 1/10), ("shop", 4/10), ("clean", 5/10)]),
   ("Sunny", [("walk", 6/10), ("shop", 3/10), ("clean", 1/10)])]

end Ex

namespace Cx

/-- States for the optimality counterexample: the integer labels `0`, `1`
(Python states may be any comparable hashable labels). -/
def sts1 : List ℕ := [0, 1]

/-- Observations for the optimality counterexample. -/
def obs1 : List String := ["x", "x", "z"]

/-- Start table for the optimality counterexample: values need not be in
`[0, 1]` to pass validation. -/
def start1 : Dict ℕ ℚ := [(0, 1), (1, 2)]

/-- Transition table for the optimality counterexample. -/
def trans1 : Dict ℕ (Dict ℕ ℚ) := [(0, [(0, 1), (1, 1)]), (1, [(0, 1), (1, 1)])]

/-- Emission table for the optimality counterexample: a negative value
passes validation (only key sets are checked). -/
def emit1 : Dict ℕ (Dict String ℚ) :=
  [(0, [("x", 1), ("z", -1)]), (1, [("x", 1), ("z", -1)])]

/-- States for the tie-break counterexample. -/
def sts3 : List ℕ := [0, 1]

/-- Observations for the tie-break counterexample. -/
def obs3 : List String := ["x"]

/-- Start table for the tie-break counterexample: both states tie. -/
def start3 : Dict ℕ ℚ := [(0, 1/2), (1, 1/2)]

/-- Transition table for the tie-break counterexample. -/
def trans3 : Dict ℕ (Dict ℕ ℚ) := [(0, [(0, 1), (1, 1)]), (1, [(0, 1), (1, 1)])]

/-- Emission table for the tie-break counterexample. -/
def emit3 : Dict ℕ (Dict String ℚ) := [(0, [("x", 1)]), (1, [("x", 1)])]

/-- An empty state tuple: passes validation with all-empty tables. -/
def sts4 : List ℕ := []

/-- A nonempty observation tuple to go with the empty state tuple. -/
def obs4 : List String := ["x"]

/-- A nonempty state tuple to go with the empty observation tuple. -/
def sts5 : List ℕ := [0]

/-- An empty observation tuple: passes validation when each emission inner
dict is empty (`set(()) == set({}.keys())`). -/
def obs5 : List String := []

/-- Start table for the empty-observations input. -/
def start5 : Dict ℕ ℚ := [(0, 1)]

/-- Transition table for the empty-observations input. -/
def trans5 : Dict ℕ (Dict ℕ ℚ) := [(0, [(0, 1)])]

/-- Emission table for the empty-observations input: the inner dict is
empty, matching the empty set of observed symbols. -/
def emit5 : Dict ℕ (Dict String ℚ) := [(0, [])]

/-- An input violating exactly check 3 (start keys ≠ states): used as the
concrete violating input for the validation claim. -/
def start6 : Dict ℕ ℚ := []

/-- Transition table satisfying checks 4 and 5 for the check-3 violation. -/
def trans6 : Dict ℕ (Dict ℕ ℚ) := [(0, [(0, 1)])]

/-- Emission table satisfying checks 6 and 7 for the check-3 violation. -/
def emit6 : Dict ℕ (Dict String ℚ) := [(0, [("x", 1)])]

end Cx

/-- The five inputs of `viterbi`, bundled as the mutable Python state the
call could in principle write to. -/
structure PyState (σ γ : Type) where
  observations : SeqOrScalar γ
  states : SeqOrScalar σ
  start_prob : Dict σ ℚ
  trans_prob : Dict σ (Dict σ ℚ)
  emit_prob : Dict σ (Dict γ ℚ)

/-- `viterbi`, translated statement by statement while threading the five
inputs through: the source assigns only to the locals `V`, `path`,
`new_path`, `max_prob`, `prev_st` and `final_state`, never to a parameter,
so every phase passes the input state through unchanged. -/
def viterbiSt {σ γ : Type} [DecidableEq σ] [LinearOrder σ] [DecidableEq γ]
    (st : PyState σ γ) : Except PyErr (ℚ × List σ) × PyState σ γ :=
  match validate_input st.observations st.states st.start_prob st.trans_prob st.emit_prob with
  | .error e => (.error e, st)
  | .ok _ =>
    match st.states with
    | .scalar => (.error .typeError, st)
    | .seq sts =>
      match st.observations with
      | .scalar => (.error .typeError, st)
      | .seq obs =>
        match initVPath obs st.start_prob st.emit_prob sts with
        | .error e => (.error e, st)
        | .ok (v0, path0) =>
          match viterbiLoop sts st.trans_prob st.emit_prob (obs.drop 1) v0 path0 with
          | .error e => (.error e, st)
          | .ok (vlast, path) =>
            match finalCandidates vlast sts with
            | .error e => (.error e, st)
            | .ok fc =>
              match pyMax fc with
              | .error e => (.error e, st)
              | .ok (max_prob, final_state) =>
                match dlookup path final_state with
                | none => (.error .keyError, st)
                | some bp => (.ok (max_prob, bp), st)

section StrFacts

theorem strF₁ : ("Rainy" = "Sunny") = False := by simp

theorem strF₂ : ("Sunny" = "Rainy") = False := by simp

theorem strF₃ : ("walk" = "shop") = False := by simp

theorem strF₄ : ("walk" = "clean") = False := by simp

theorem strF₅ : ("shop" = "clean") = False := by simp

theorem strF₆ : ("shop" = "walk") = False := by simp

theorem strF₇ : ("clean" = "walk") = False := by simp

theorem strF₈ : ("clean" = "shop") = False := by simp

theorem strF₉ : ("x" = "z") = False := by simp

theorem strF₁₀ : ("z" = "x") = False := by simp

end StrFacts

/-- Helper: the canonical example evaluates as the spec's §6 scenario says. -/
theorem exViterbiEval :
    viterbi (.seq Ex.observations) (.seq Ex.states) Ex.start_prob Ex.trans_prob Ex.emit_prob
      = .ok (1344/100000, ["Sunny", "Rainy", "Rainy"]) := by
  norm_num [viterbi, validate_input, allKeysEq, keysMatch, dlookup, dkeys, viterbiRun,
    initVPath, viterbiLoop, stepStates, candidates, finalCandidates, pyMax, runMax, pairGtB,
    Ex.observations, Ex.states, Ex.start_prob, Ex.trans_prob, Ex.emit_prob,
    strF₁, strF₂, strF₃, strF₄, strF₅, strF₆, strF₇, strF₈]

section BasicLemmas

variable {σ γ : Type} [DecidableEq σ] [LinearOrder σ] [DecidableEq γ]

theorem dlookup_mem {κ ν : Type} [DecidableEq κ] {d : Dict κ ν} {k : κ} {v : ν}
    (h : dlookup d k = some v) : (k, v) ∈ d := by
  induction d with
  | nil => simp [dlookup] at h
  | cons kv rest ih =>
    obtain ⟨k', v'⟩ := kv
    by_cases hk : k' = k
    · subst hk
      have h' : v' = v := by simpa [dlookup] using h
      subst h'
      exact List.mem_cons_self _ _
    · simp only [dlookup, if_neg hk] at h
      exact List.mem_cons_of_mem _ (ih h)

theorem dlookup_isSome_iff {κ ν : Type} [DecidableEq κ] {d : Dict κ ν} {k : κ} :
    (dlookup d k).isSome = true ↔ k ∈ dkeys d := by
  induction d with
  | nil => simp [dlookup, dkeys]
  | cons kv rest ih =>
    obtain ⟨k', v'⟩ := kv
    by_cases hk : k' = k
    · subst hk; simp [dlookup, dkeys]
    · simp [dlookup, dkeys, if_neg hk, ih, Ne.symm hk]

theorem dlookup_map_self {α : Type} {l : List σ} (f : σ → α) {k : σ} (h : k ∈ l) :
    dlookup (l.map (fun s => (s, f s))) k = some (f k) := by
  induction l with
  | nil => simp at h
  | cons s rest ih =>
    by_cases hs : s = k
    · subst hs; simp [dlookup]
    · rcases List.mem_cons.mp h with h' | h'
      · exact absurd h'.symm hs
      · simp only [List.map_cons, dlookup, if_neg hs]
        exact ih h'

theorem keysMatch_iff {α : Type} [DecidableEq α] {a b : List α} :
    keysMatch a b = true ↔ ∀ x, (x ∈ a ↔ x ∈ b) := by
  simp only [keysMatch, Bool.and_eq_true, List.all_eq_true, decide_eq_true_eq]
  constructor
  · rintro ⟨h₁, h₂⟩ x
    exact ⟨fun hx => h₁ x hx, fun hx => h₂ x hx⟩
  · intro h
    exact ⟨fun x hx => (h x).mp hx, fun x hx => (h x).mpr hx⟩

theorem mem_allSeqs_iff {sts : List σ} :
    ∀ {n : ℕ} {q : List σ}, q ∈ allSeqs sts n ↔ q.length = n ∧ ∀ x ∈ q, x ∈ sts := by
  intro n
  induction n with
  | zero =>
    intro q
    simp only [allSeqs, List.mem_singleton, List.length_eq_zero]
    constructor
    · rintro rfl; simp
    · rintro ⟨rfl, _⟩; rfl
  | succ n ih =>
    intro q
    simp only [allSeqs, List.mem_flatMap, List.mem_map]
    constructor
    · rintro ⟨s, hs, q', hq', rfl⟩
      rcases ih.mp hq' with ⟨hl, hall⟩
      refine ⟨by simp [hl], ?_⟩
      intro x hx
      rcases List.mem_cons.mp hx with rfl | hx
      · exact hs
      · exact hall x hx
    · rintro ⟨hl, hall⟩
      cases q with
      | nil => simp at hl
      | cons s q' =>
        refine ⟨s, hall s (List.mem_cons_self _ _), q', ?_, rfl⟩
        refine ih.mpr ⟨by simpa using hl, ?_⟩
        intro x hx
        exact hall x (List.mem_cons_of_mem _ hx)

theorem pairGtB_eq_false_iff {a b : ℚ × σ} : pairGtB a b = false ↔ pairLe a b := by
  simp only [pairGtB, pairLe, Bool.or_eq_false_iff, Bool.and_eq_false_iff,
    decide_eq_false_iff_not, not_lt]
  constructor
  · rintro ⟨h₁, h₂⟩
    refine ⟨h₁, fun he => ?_⟩
    rcases h₂ with h₂ | h₂
    · exact absurd he h₂
    · exact h₂
  · rintro ⟨h₁, h₂⟩
    refine ⟨h₁, ?_⟩
    by_cases he : a.1 = b.1
    · exact Or.inr (h₂ he)
    · exact Or.inl he

theorem pairGtB_eq_true_le {a b : ℚ × σ} (h : pairGtB a b = true) : pairLe b a := by
  simp only [pairGtB, Bool.or_eq_true, Bool.and_eq_true, decide_eq_true_eq] at h
  rcases h with h | ⟨h₁, h₂⟩
  · exact ⟨le_of_lt h, fun he => absurd he (ne_of_lt h)⟩
  · exact ⟨le_of_eq h₁.symm, fun _ => le_of_lt h₂⟩

theorem pairLe_refl (a : ℚ × σ) : pairLe a a := ⟨le_rfl, fun _ => le_rfl⟩

theorem pairLe_trans {a b c : ℚ × σ} (h₁ : pairLe a b) (h₂ : pairLe b c) : pairLe a c := by
  refine ⟨le_trans h₁.1 h₂.1, fun he => ?_⟩
  have hab : a.1 = b.1 := le_antisymm h₁.1 (he ▸ h₂.1)
  have hbc : b.1 = c.1 := hab ▸ he
  exact le_trans (h₁.2 hab) (h₂.2 hbc)

theorem pairLe_antisymm {a b : ℚ × σ} (h₁ : pairLe a b) (h₂ : pairLe b a) : a = b := by
  have he : a.1 = b.1 := le_antisymm h₁.1 h₂.1
  have hs : a.2 = b.2 := le_antisymm (h₁.2 he) (h₂.2 he.symm)
  exact Prod.ext he hs

theorem runMax_mem (x : ℚ × σ) (xs : List (ℚ × σ)) : runMax x xs ∈ x :: xs := by
  induction xs generalizing x with
  | nil => simp [runMax]
  | cons y ys ih =>
    have : runMax x (y :: ys) = runMax (if pairGtB y x then y else x) ys := rfl
    rw [this]
    have h := ih (if pairGtB y x then y else x)
    rcases List.mem_cons.mp h with h' | h'
    · rw [h']
      by_cases hgt : pairGtB y x = true
      · simp [hgt]
      · simp only [Bool.not_eq_true] at hgt
        simp [hgt]
    · exact List.mem_cons_of_mem _ (List.mem_cons_of_mem _ h')

theorem runMax_le {xs : List (ℚ × σ)} :
    ∀ (x z : ℚ × σ), z ∈ x :: xs → pairLe z (runMax x xs) := by
  induction xs with
  | nil =>
    intro x z hz
    rcases List.mem_cons.mp hz with rfl | h
    · exact pairLe_refl z
    · simp at h
  | cons y ys ih =>
    intro x z hz
    have hrw : runMax x (y :: ys) = runMax (if pairGtB y x then y else x) ys := rfl
    rw [hrw]
    set a := if pairGtB y x then y else x with ha
    have hxa : pairLe x a := by
      by_cases hgt : pairGtB y x = true
      · rw [ha]; simp only [hgt, if_true]; exact pairGtB_eq_true_le hgt
      · simp only [Bool.not_eq_true] at hgt
        rw [ha]; simp only [hgt, Bool.false_eq_true, if_false]; exact pairLe_refl x
    have hya : pairLe y a := by
      by_cases hgt : pairGtB y x = true
      · rw [ha]; simp only [hgt, if_true]; exact pairLe_refl y
      · simp only [Bool.not_eq_true] at hgt
        rw [ha]; simp only [hgt, Bool.false_eq_true, if_false]
        exact pairGtB_eq_false_iff.mp hgt
    have haMax : pairLe a (runMax a ys) := ih a a (List.mem_cons_self _ _)
    rcases List.mem_cons.mp hz with rfl | hz'
    · exact pairLe_trans hxa haMax
    · rcases List.mem_cons.mp hz' with rfl | hz''
      · exact pairLe_trans hya haMax
      · exact ih a z (List.mem_cons_of_mem _ hz'')

theorem pyMax_ok {l : List (ℚ × σ)} {m : ℚ × σ} (h : pyMax l = .ok m) :
    m ∈ l ∧ ∀ z ∈ l, pairLe z m := by
  cases l with
  | nil => simp [pyMax] at h
  | cons x xs =>
    simp only [pyMax, Except.ok.injEq] at h
    subst h
    exact ⟨runMax_mem x xs, fun z hz => runMax_le x z hz⟩

theorem pyMax_unique {l : List (ℚ × σ)} {m m' : ℚ × σ}
    (hm : m ∈ l ∧ ∀ z ∈ l, pairLe z m) (hm' : m' ∈ l ∧ ∀ z ∈ l, pairLe z m') :
    m = m' :=
  pairLe_antisymm (hm'.2 m hm.1) (hm.2 m' hm'.1)

end BasicLemmas

section ValidateLemmas

variable {σ γ : Type} [DecidableEq σ] [LinearOrder σ] [DecidableEq γ]

theorem q1_eq {d : Dict σ ℚ} {s : σ} {v : ℚ} (h : dlookup d s = some v) : q1 d s = v := by
  simp [q1, h]

theorem q2_eq {κ : Type} [DecidableEq κ] {d : Dict σ (Dict κ ℚ)} {s : σ} {k : κ}
    {inner : Dict κ ℚ} {w : ℚ} (h₁ : dlookup d s = some inner)
    (h₂ : dlookup inner k = some w) : q2 d s k = w := by
  simp [q2, h₁, h₂]

theorem allKeysEq_ok {κ : Type} [DecidableEq κ] {d : Dict σ (Dict κ ℚ)} {tgt : List κ}
    {sts : List σ} (hp : ∀ s ∈ sts, ∃ inner, dlookup d s = some inner) :
    allKeysEq d tgt sts = .ok (sts.all (fun s =>
      match dlookup d s with
      | none => true
      | some inner => keysMatch (dkeys inner) tgt)) := by
  induction sts with
  | nil => rfl
  | cons s rest ih =>
    obtain ⟨inner, hinner⟩ := hp s (List.mem_cons_self _ _)
    have ihr := ih (fun s' hs' => hp s' (List.mem_cons_of_mem _ hs'))
    simp only [allKeysEq, hinner, List.all_cons]
    by_cases hk : keysMatch (dkeys inner) tgt = true
    · rw [if_pos hk, ihr, hk]
      simp
    · simp only [Bool.not_eq_true] at hk
      rw [if_neg (by simp [hk]), hk]
      simp

theorem validate_seq_ok_iff {obsL : List γ} {stsL : List σ} {sp : Dict σ ℚ}
    {tp : Dict σ (Dict σ ℚ)} {ep : Dict σ (Dict γ ℚ)} :
    validate_input (.seq obsL) (.seq stsL) sp tp ep = .ok () ↔
      (chk3 (.seq stsL) sp = true ∧ chk4 (.seq stsL) tp = true ∧
       chk5 (.seq stsL) tp = true ∧ chk6 (.seq stsL) ep = true ∧
       chk7 (.seq obsL) (.seq stsL) ep = true) := by
  simp only [validate_input, chk3, chk4, chk5, chk6, chk7]
  by_cases h3 : keysMatch (dkeys sp) stsL = true
  · rw [if_neg (by simp [h3])]
    by_cases h4 : keysMatch (dkeys tp) stsL = true
    · rw [if_neg (by simp [h4])]
      have htp : ∀ s ∈ stsL, ∃ inner, dlookup tp s = some inner := by
        intro s hs
        have : s ∈ dkeys tp := ((keysMatch_iff.mp h4) s).mpr hs
        obtain ⟨inner, hi⟩ := Option.isSome_iff_exists.mp (dlookup_isSome_iff.mpr this)
        exact ⟨inner, hi⟩
      rw [allKeysEq_ok htp]
      by_cases h5 : (stsL.all (fun s =>
          match dlookup tp s with
          | none => true
          | some inner => keysMatch (dkeys inner) stsL)) = true
      · rw [h5]
        by_cases h6 : keysMatch (dkeys ep) stsL = true
        · rw [if_neg (by simp [h6])]
          have hep : ∀ s ∈ stsL, ∃ inner, dlookup ep s = some inner := by
            intro s hs
            have : s ∈ dkeys ep := ((keysMatch_iff.mp h6) s).mpr hs
            obtain ⟨inner, hi⟩ := Option.isSome_iff_exists.mp (dlookup_isSome_iff.mpr this)
            exact ⟨inner, hi⟩
          rw [allKeysEq_ok hep]
          by_cases h7 : (stsL.all (fun s =>
              match dlookup ep s with
              | none => true
              | some inner => keysMatch (dkeys inner) obsL)) = true
          · rw [h7]
            simp [h3, h4, h5, h6, h7]
          · simp only [Bool.not_eq_true] at h7
            rw [h7]
            simp [h7]
        · simp only [Bool.not_eq_true] at h6
          rw [if_pos (by simp [h6])]
          simp [h6]
      · simp only [Bool.not_eq_true] at h5
        rw [h5]
        simp [h5]
    · simp only [Bool.not_eq_true] at h4
      rw [if_pos (by simp [h4])]
      simp [h4]
  · simp only [Bool.not_eq_true] at h3
    rw [if_pos (by simp [h3])]
    simp [h3]

theorem validate_ok_present {obsL : List γ} {stsL : List σ} {sp : Dict σ ℚ}
    {tp : Dict σ (Dict σ ℚ)} {ep : Dict σ (Dict γ ℚ)}
    (h : validate_input (.seq obsL) (.seq stsL) sp tp ep = .ok ()) :
    keyPresent sp stsL ∧ ddPresent tp stsL stsL ∧ ddPresent ep stsL obsL := by
  obtain ⟨h3, h4, h5, h6, h7⟩ := validate_seq_ok_iff.mp h
  simp only [chk3, chk5, chk7, List.all_eq_true] at h3 h5 h7
  refine ⟨?_, ?_, ?_⟩
  · intro s hs
    have : s ∈ dkeys sp := ((keysMatch_iff.mp h3) s).mpr hs
    exact Option.isSome_iff_exists.mp (dlookup_isSome_iff.mpr this)
  · intro s hs
    simp only [chk4] at h4
    have : s ∈ dkeys tp := ((keysMatch_iff.mp h4) s).mpr hs
    obtain ⟨inner, hi⟩ := Option.isSome_iff_exists.mp (dlookup_isSome_iff.mpr this)
    refine ⟨inner, hi, ?_⟩
    intro k hk
    have h5s := h5 s hs
    rw [hi] at h5s
    simp only [decide_eq_true_eq] at h5s
    have : k ∈ dkeys inner := ((keysMatch_iff.mp h5s) k).mpr hk
    exact Option.isSome_iff_exists.mp (dlookup_isSome_iff.mpr this)
  · intro s hs
    simp only [chk6] at h6
    have : s ∈ dkeys ep := ((keysMatch_iff.mp h6) s).mpr hs
    obtain ⟨inner, hi⟩ := Option.isSome_iff_exists.mp (dlookup_isSome_iff.mpr this)
    refine ⟨inner, hi, ?_⟩
    intro k hk
    have h7s := h7 s hs
    rw [hi] at h7s
    simp only [decide_eq_true_eq] at h7s
    have : k ∈ dkeys inner := ((keysMatch_iff.mp h7s) k).mpr hk
    exact Option.isSome_iff_exists.mp (dlookup_isSome_iff.mpr this)

end ValidateLemmas

section RefineLemmas

variable {σ γ : Type} [DecidableEq σ] [LinearOrder σ] [DecidableEq γ]

theorem rowMax_mem (f : σ → ℚ) (s0 : σ) (rest : List σ) :
    ∃ p ∈ s0 :: rest, rowMax f s0 rest = (f p, p) := by
  have h := runMax_mem (f s0, s0) (rest.map (fun p => (f p, p)))
  rcases List.mem_cons.mp h with h' | h'
  · exact ⟨s0, List.mem_cons_self _ _, h'⟩
  · obtain ⟨p, hp, hpe⟩ := List.mem_map.mp h'
    exact ⟨p, List.mem_cons_of_mem _ hp, hpe.symm⟩

theorem rowMax_snd_mem (f : σ → ℚ) (s0 : σ) (rest : List σ) :
    (rowMax f s0 rest).2 ∈ s0 :: rest := by
  obtain ⟨p, hp, he⟩ := rowMax_mem f s0 rest
  rw [he]
  exact hp

theorem rowMax_fst (f : σ → ℚ) (s0 : σ) (rest : List σ) :
    (rowMax f s0 rest).1 = f (rowMax f s0 rest).2 := by
  obtain ⟨p, _, he⟩ := rowMax_mem f s0 rest
  rw [he]

theorem rowMax_le (f : σ → ℚ) (s0 : σ) (rest : List σ) :
    ∀ p ∈ s0 :: rest, f p ≤ (rowMax f s0 rest).1 := by
  intro p hp
  have hmem : (f p, p) ∈ (f s0, s0) :: rest.map (fun q => (f q, q)) := by
    rcases List.mem_cons.mp hp with rfl | hp'
    · exact List.mem_cons_self _ _
    · exact List.mem_cons_of_mem _ (List.mem_map.mpr ⟨p, hp', rfl⟩)
  exact (runMax_le _ _ hmem).1

theorem initVPath_ok (o0 : γ) (os : List γ) {sp : Dict σ ℚ} {ep : Dict σ (Dict γ ℚ)}
    {sts : List σ} (hp : keyPresent sp sts)
    (he : ∀ s ∈ sts, ∃ inner, dlookup ep s = some inner ∧ ∃ w, dlookup inner o0 = some w) :
    initVPath (o0 :: os) sp ep sts =
      .ok (sts.map (fun s => (s, pvInit sp ep o0 s)), sts.map (fun s => (s, [s]))) := by
  induction sts with
  | nil => rfl
  | cons s rest ih =>
    obtain ⟨v, hv⟩ := hp s (List.mem_cons_self _ _)
    obtain ⟨inner, hinner, w, hw⟩ := he s (List.mem_cons_self _ _)
    have ihr := ih (fun s' hs' => hp s' (List.mem_cons_of_mem _ hs'))
      (fun s' hs' => he s' (List.mem_cons_of_mem _ hs'))
    simp only [initVPath, hv, hinner, List.head?_cons, hw, ihr, List.map_cons]
    have : pvInit sp ep o0 s = v * w := by
      rw [pvInit, q1_eq hv, q2_eq hinner hw]
    rw [this]

theorem candidates_ok (Vf : σ → ℚ) {sts : List σ} {tp : Dict σ (Dict σ ℚ)}
    {ep : Dict σ (Dict γ ℚ)} {c : σ} {o : γ}
    (htp : ∀ p ∈ sts, ∃ inner, dlookup tp p = some inner ∧ ∃ w, dlookup inner c = some w)
    (hep : ∃ inner, dlookup ep c = some inner ∧ ∃ w, dlookup inner o = some w) :
    ∀ (cur : List σ), (∀ p ∈ cur, p ∈ sts) →
      candidates (sts.map (fun s => (s, Vf s))) tp ep c o cur =
        .ok (cur.map (fun p => (Vf p * q2 tp p c * q2 ep c o, p))) := by
  intro cur
  induction cur with
  | nil => intro _; rfl
  | cons p rest ih =>
    intro hsub
    have hpm : p ∈ sts := hsub p (List.mem_cons_self _ _)
    obtain ⟨ti, hti, tw, htw⟩ := htp p hpm
    obtain ⟨ei, hei, ew, hew⟩ := hep
    have hvl : dlookup (sts.map (fun s => (s, Vf s))) p = some (Vf p) :=
      dlookup_map_self Vf hpm
    have ihr := ih (fun q hq => hsub q (List.mem_cons_of_mem _ hq))
    simp only [candidates, hvl, hti, htw, hei, hew, ihr, List.map_cons]
    rw [q2_eq hti htw, q2_eq hei hew]

theorem stepStates_ok (Vf : σ → ℚ) (Pf : σ → List σ) {s0 : σ} {rest : List σ}
    {tp : Dict σ (Dict σ ℚ)} {ep : Dict σ (Dict γ ℚ)} (o : γ)
    (htp : ddPresent tp (s0 :: rest) (s0 :: rest))
    (hep : ∀ c ∈ s0 :: rest, ∃ inner, dlookup ep c = some inner ∧ ∃ w, dlookup inner o = some w) :
    ∀ (cur : List σ), (∀ c ∈ cur, c ∈ s0 :: rest) →
      stepStates ((s0 :: rest).map (fun s => (s, Vf s)))
          ((s0 :: rest).map (fun s => (s, Pf s))) tp ep o (s0 :: rest) cur =
        .ok (cur.map (fun c => (c, (pstep s0 rest tp ep o (Vf, Pf)).1 c)),
             cur.map (fun c => (c, (pstep s0 rest tp ep o (Vf, Pf)).2 c))) := by
  intro cur
  induction cur with
  | nil => intro _; rfl
  | cons c rest' ih =>
    intro hsub
    have hcm : c ∈ s0 :: rest := hsub c (List.mem_cons_self _ _)
    have htp' : ∀ p ∈ s0 :: rest, ∃ inner, dlookup tp p = some inner ∧
        ∃ w, dlookup inner c = some w := by
      intro p hp
      obtain ⟨inner, hi, hall⟩ := htp p hp
      exact ⟨inner, hi, hall c hcm⟩
    obtain ⟨ei, hei, ew, hew⟩ := hep c hcm
    have hcand := candidates_ok Vf htp' ⟨ei, hei, ew, hew⟩ (s0 :: rest)
      (fun p hp => hp)
    rcases hsplit : rowMax (fun p => Vf p * q2 tp p c * q2 ep c o) s0 rest with ⟨mp, prev⟩
    have hpm : pyMax ((s0 :: rest).map
        (fun p => (Vf p * q2 tp p c * q2 ep c o, p))) = .ok (mp, prev) := by
      have h0 : pyMax ((s0 :: rest).map
          (fun p => (Vf p * q2 tp p c * q2 ep c o, p))) =
        .ok (rowMax (fun p => Vf p * q2 tp p c * q2 ep c o) s0 rest) := rfl
      rw [h0, hsplit]
    have hprev : prev ∈ s0 :: rest := by
      have h0 := rowMax_snd_mem (fun p => Vf p * q2 tp p c * q2 ep c o) s0 rest
      rwa [hsplit] at h0
    have hpl : dlookup ((s0 :: rest).map (fun s => (s, Pf s))) prev = some (Pf prev) :=
      dlookup_map_self Pf hprev
    have h1 : (pstep s0 rest tp ep o (Vf, Pf)).1 c = mp := by
      simp only [pstep, hsplit]
    have h2 : (pstep s0 rest tp ep o (Vf, Pf)).2 c = Pf prev ++ [c] := by
      simp only [pstep, hsplit]
    have ihr := ih (fun q hq => hsub q (List.mem_cons_of_mem _ hq))
    simp only [List.map_cons] at hcand hpm hpl ihr ⊢
    simp only [stepStates, hcand, hpm, hpl, ihr, h1, h2]

theorem viterbiLoop_ok {s0 : σ} {rest : List σ} {tp : Dict σ (Dict σ ℚ)}
    (ep : Dict σ (Dict γ ℚ)) (htp : ddPresent tp (s0 :: rest) (s0 :: rest)) :
    ∀ (obsRest : List γ) (Vf : σ → ℚ) (Pf : σ → List σ),
      (∀ o ∈ obsRest, ∀ c ∈ s0 :: rest,
        ∃ inner, dlookup ep c = some inner ∧ ∃ w, dlookup inner o = some w) →
      viterbiLoop (s0 :: rest) tp ep obsRest
          ((s0 :: rest).map (fun s => (s, Vf s))) ((s0 :: rest).map (fun s => (s, Pf s))) =
        .ok (((s0 :: rest).map (fun s =>
                (s, (ploop s0 rest tp ep obsRest (Vf, Pf)).1 s))),
             ((s0 :: rest).map (fun s =>
                (s, (ploop s0 rest tp ep obsRest (Vf, Pf)).2 s)))) := by
  intro obsRest
  induction obsRest with
  | nil => intro Vf Pf _; rfl
  | cons o os ih =>
    intro Vf Pf hep
    have hstep := stepStates_ok Vf Pf o htp
      (fun c hc => hep o (List.mem_cons_self _ _) c hc) (s0 :: rest) (fun c hc => hc)
    have ihr := ih (pstep s0 rest tp ep o (Vf, Pf)).1 (pstep s0 rest tp ep o (Vf, Pf)).2
      (fun o' ho' => hep o' (List.mem_cons_of_mem _ ho'))
    simp only [viterbiLoop, hstep, ploop, ihr]

theorem finalCandidates_ok (Vf : σ → ℚ) (sts : List σ) :
    ∀ (cur : List σ), (∀ s ∈ cur, s ∈ sts) →
      finalCandidates (sts.map (fun s => (s, Vf s))) cur =
        .ok (cur.map (fun s => (Vf s, s))) := by
  intro cur
  induction cur with
  | nil => intro _; rfl
  | cons s rest ih =>
    intro hsub
    have hv : dlookup (sts.map (fun t => (t, Vf t))) s = some (Vf s) :=
      dlookup_map_self Vf (hsub s (List.mem_cons_self _ _))
    have ihr := ih (fun q hq => hsub q (List.mem_cons_of_mem _ hq))
    simp only [finalCandidates, hv, ihr, List.map_cons]

/-- Master refinement: when validation passes and both sequences are
nonempty, `viterbi` runs to completion and returns the pure dynamic
program's answer. -/
theorem viterbi_ok_eq {o0 : γ} {os : List γ} {s0 : σ} {rest : List σ} {sp : Dict σ ℚ}
    {tp : Dict σ (Dict σ ℚ)} {ep : Dict σ (Dict γ ℚ)}
    (h : validate_input (.seq (o0 :: os)) (.seq (s0 :: rest)) sp tp ep = .ok ()) :
    viterbi (.seq (o0 :: os)) (.seq (s0 :: rest)) sp tp ep =
      .ok (pureViterbi o0 os s0 rest sp tp ep) := by
  obtain ⟨hsp, htp, hep⟩ := validate_ok_present h
  have hinit := initVPath_ok o0 os hsp
    (fun s hs => by
      obtain ⟨inner, hi, hall⟩ := hep s hs
      exact ⟨inner, hi, hall o0 (List.mem_cons_self _ _)⟩)
  have hloop := viterbiLoop_ok ep htp os (pvInit sp ep o0) (fun s => [s])
    (fun o ho c hc => by
      obtain ⟨inner, hi, hall⟩ := hep c hc
      exact ⟨inner, hi, hall o (List.mem_cons_of_mem _ ho)⟩)
  have hfin := finalCandidates_ok
    (ploop s0 rest tp ep os (pvInit sp ep o0, fun s => [s])).1
    (s0 :: rest) (s0 :: rest) (fun s hs => hs)
  have hpm : pyMax ((s0 :: rest).map
      (fun s => ((ploop s0 rest tp ep os (pvInit sp ep o0, fun s => [s])).1 s, s))) =
    .ok (rowMax (ploop s0 rest tp ep os (pvInit sp ep o0, fun s => [s])).1 s0 rest) := rfl
  have hfs := rowMax_snd_mem
    (ploop s0 rest tp ep os (pvInit sp ep o0, fun s => [s])).1 s0 rest
  have hbp : dlookup ((s0 :: rest).map (fun s =>
      (s, (ploop s0 rest tp ep os (pvInit sp ep o0, fun s => [s])).2 s)))
      (rowMax (ploop s0 rest tp ep os (pvInit sp ep o0, fun s => [s])).1 s0 rest).2 =
    some ((ploop s0 rest tp ep os (pvInit sp ep o0, fun s => [s])).2
      (rowMax (ploop s0 rest tp ep os (pvInit sp ep o0, fun s => [s])).1 s0 rest).2) :=
    dlookup_map_self _ hfs
  simp only [viterbi, h, viterbiRun, List.drop_one, List.tail_cons, hinit, hloop, hfin,
    hpm, hbp, pureViterbi]

end RefineLemmas

section SeqProbLemmas

variable {σ γ : Type} [DecidableEq σ] [LinearOrder σ] [DecidableEq γ]

theorem trailProb_append {tp : Dict σ (Dict σ ℚ)} {ep : Dict σ (Dict γ ℚ)} :
    ∀ {os : List γ} {ss : List σ} (p : σ) (o : γ) (s : σ), os.length = ss.length →
      trailProb tp ep p (os ++ [o]) (ss ++ [s]) =
        trailProb tp ep p os ss * (q2 tp (ss.getLastD p) s * q2 ep s o) := by
  intro os
  induction os with
  | nil =>
    intro ss p o s hlen
    have : ss = [] := by
      cases ss with
      | nil => rfl
      | cons a l => simp at hlen
    subst this
    simp only [List.nil_append, trailProb, List.getLastD]
    ring
  | cons o' os' ih =>
    intro ss p o s hlen
    cases ss with
    | nil => simp at hlen
    | cons s' ss' =>
      have hlen' : os'.length = ss'.length := by simpa using hlen
      rw [List.cons_append, List.cons_append]
      have h1 : trailProb tp ep p (o' :: (os' ++ [o])) (s' :: (ss' ++ [s])) =
          q2 tp p s' * q2 ep s' o' * trailProb tp ep s' (os' ++ [o]) (ss' ++ [s]) := rfl
      have h2 : trailProb tp ep p (o' :: os') (s' :: ss') =
          q2 tp p s' * q2 ep s' o' * trailProb tp ep s' os' ss' := rfl
      rw [h1, h2, ih s' o s hlen', List.getLastD_cons]
      ring

theorem seqProb_concat {sp : Dict σ ℚ} {tp : Dict σ (Dict σ ℚ)} {ep : Dict σ (Dict γ ℚ)}
    {o0 : γ} {processed : List γ} {o : γ} {q : List σ} {c : σ}
    (hlen : q.length = processed.length + 1) :
    seqProb sp tp ep (o0 :: (processed ++ [o])) (q ++ [c]) =
      seqProb sp tp ep (o0 :: processed) q * (q2 tp (q.getLastD c) c * q2 ep c o) := by
  cases q with
  | nil => simp at hlen
  | cons s ss =>
    have hlen' : processed.length = ss.length := by simpa using hlen.symm
    simp only [List.cons_append, seqProb, trailProb_append s o c hlen',
      List.getLastD_cons]
    ring

theorem mem_allSeqs_concat {sts : List σ} {q : List σ} {n : ℕ} {c : σ}
    (hq : q ∈ allSeqs sts n) (hc : c ∈ sts) : q ++ [c] ∈ allSeqs sts (n + 1) := by
  rcases mem_allSeqs_iff.mp hq with ⟨hl, hall⟩
  refine mem_allSeqs_iff.mpr ⟨by simp [hl], ?_⟩
  intro x hx
  rcases List.mem_append.mp hx with hx | hx
  · exact hall x hx
  · rcases List.mem_singleton.mp hx with rfl
    exact hc

theorem allSeqs_decompose {sts : List σ} {q : List σ} {n : ℕ} {c : σ}
    (hq : q ∈ allSeqs sts (n + 2)) (hc : q.getLast? = some c) :
    ∃ q' p, q = q' ++ [c] ∧ q' ∈ allSeqs sts (n + 1) ∧ p ∈ sts ∧ q'.getLast? = some p := by
  rcases mem_allSeqs_iff.mp hq with ⟨hl, hall⟩
  have hne : q ≠ [] := by
    intro h; rw [h] at hl; simp at hl
  have hsplit : q.dropLast ++ [q.getLast hne] = q := List.dropLast_append_getLast hne
  have hlast : q.getLast hne = c := by
    have := List.getLast?_eq_getLast q hne
    rw [this] at hc
    exact Option.some.inj hc
  have hlen' : q.dropLast.length = n + 1 := by
    rw [List.length_dropLast, hl]
    rfl
  have hne' : q.dropLast ≠ [] := by
    intro h
    rw [h] at hlen'
    simp at hlen'
  have hgen : ∀ x, x ∈ q.dropLast → x ∈ q := by
    intro x hx
    exact hsplit ▸ List.mem_append.mpr (Or.inl hx)
  have hmem' : q.dropLast ∈ allSeqs sts (n + 1) := by
    refine mem_allSeqs_iff.mpr ⟨hlen', ?_⟩
    intro x hx
    exact hall x (hgen x hx)
  refine ⟨q.dropLast, q.dropLast.getLast hne', ?_, hmem', ?_, ?_⟩
  · rw [← hlast, hsplit]
  · exact hall _ (hgen _ (List.getLast_mem hne'))
  · exact List.getLast?_eq_getLast _ hne'

theorem q1_nonneg {d : Dict σ ℚ} (h : nonnegD d) (s : σ) : 0 ≤ q1 d s := by
  rw [q1]
  cases hv : dlookup d s with
  | none => simp
  | some v =>
    simp only [Option.getD_some]
    exact h (s, v) (dlookup_mem hv)

theorem q2_nonneg {κ : Type} [DecidableEq κ] {d : Dict σ (Dict κ ℚ)} (h : nonnegDD d)
    (s : σ) (k : κ) : 0 ≤ q2 d s k := by
  rw [q2]
  cases hi : dlookup d s with
  | none => simp [dlookup]
  | some inner =>
    simp only [Option.getD_some]
    cases hw : dlookup inner k with
    | none => simp
    | some w =>
      simp only [Option.getD_some]
      exact h (s, inner) (dlookup_mem hi) (k, w) (dlookup_mem hw)

theorem q1_bounded {d : Dict σ ℚ} (h : boundedD d) (s : σ) : 0 ≤ q1 d s ∧ q1 d s ≤ 1 := by
  rw [q1]
  cases hv : dlookup d s with
  | none => simp
  | some v =>
    simp only [Option.getD_some]
    exact h (s, v) (dlookup_mem hv)

theorem q2_bounded {κ : Type} [DecidableEq κ] {d : Dict σ (Dict κ ℚ)} (h : boundedDD d)
    (s : σ) (k : κ) : 0 ≤ q2 d s k ∧ q2 d s k ≤ 1 := by
  rw [q2]
  cases hi : dlookup d s with
  | none => simp [dlookup]
  | some inner =>
    simp only [Option.getD_some]
    cases hw : dlookup inner k with
    | none => simp
    | some w =>
      simp only [Option.getD_some]
      exact h (s, inner) (dlookup_mem hi) (k, w) (dlookup_mem hw)

theorem trailProb_bounded {tp : Dict σ (Dict σ ℚ)} {ep : Dict σ (Dict γ ℚ)}
    (htp : boundedDD tp) (hep : boundedDD ep) :
    ∀ (os : List γ) (p : σ) (ss : List σ),
      0 ≤ trailProb tp ep p os ss ∧ trailProb tp ep p os ss ≤ 1 := by
  intro os
  induction os with
  | nil =>
    intro p ss
    cases ss with
    | nil => simp [trailProb]
    | cons s ss' => simp [trailProb]
  | cons o os' ih =>
    intro p ss
    cases ss with
    | nil => simp [trailProb]
    | cons s ss' =>
      simp only [trailProb]
      obtain ⟨ht0, ht1⟩ := q2_bounded htp p s
      obtain ⟨he0, he1⟩ := q2_bounded hep s o
      obtain ⟨hr0, hr1⟩ := ih s ss'
      constructor
      · exact mul_nonneg (mul_nonneg ht0 he0) hr0
      · calc q2 tp p s * q2 ep s o * trailProb tp ep s os' ss'
            ≤ 1 * 1 * 1 := by
              apply mul_le_mul (mul_le_mul ht1 he1 he0 zero_le_one) hr1 hr0
              simp
          _ = 1 := by ring

theorem seqProb_bounded {sp : Dict σ ℚ} {tp : Dict σ (Dict σ ℚ)} {ep : Dict σ (Dict γ ℚ)}
    (hsp : boundedD sp) (htp : boundedDD tp) (hep : boundedDD ep)
    (obs : List γ) (q : List σ) :
    0 ≤ seqProb sp tp ep obs q ∧ seqProb sp tp ep obs q ≤ 1 := by
  cases obs with
  | nil => cases q <;> simp [seqProb]
  | cons o os =>
    cases q with
    | nil => simp [seqProb]
    | cons s ss =>
      simp only [seqProb]
      obtain ⟨hs0, hs1⟩ := q1_bounded hsp s
      obtain ⟨he0, he1⟩ := q2_bounded hep s o
      obtain ⟨hr0, hr1⟩ := trailProb_bounded htp hep os s ss
      constructor
      · exact mul_nonneg (mul_nonneg hs0 he0) hr0
      · calc q1 sp s * q2 ep s o * trailProb tp ep s os ss
            ≤ 1 * 1 * 1 := by
              apply mul_le_mul (mul_le_mul hs1 he1 he0 zero_le_one) hr1 hr0
              simp
          _ = 1 := by ring

end SeqProbLemmas

section DPLemmas

variable {σ γ : Type} [DecidableEq σ] [LinearOrder σ] [DecidableEq γ]

theorem getLastD_of_getLast? {l : List σ} {p : σ} (h : l.getLast? = some p) (d : σ) :
    l.getLastD d = p := by
  rw [List.getLastD_eq_getLast?, h]
  rfl

theorem pstep_shape {sp : Dict σ ℚ} {tp : Dict σ (Dict σ ℚ)} {ep : Dict σ (Dict γ ℚ)}
    {s0 : σ} {rest : List σ} {o0 : γ} (o : γ) {processed : List γ}
    {Vf : σ → ℚ} {Pf : σ → List σ}
    (hinv : ∀ s ∈ s0 :: rest, Pf s ∈ allSeqs (s0 :: rest) (processed.length + 1) ∧
      (Pf s).getLast? = some s ∧ seqProb sp tp ep (o0 :: processed) (Pf s) = Vf s) :
    ∀ c ∈ s0 :: rest,
      (pstep s0 rest tp ep o (Vf, Pf)).2 c ∈ allSeqs (s0 :: rest) (processed.length + 2) ∧
      ((pstep s0 rest tp ep o (Vf, Pf)).2 c).getLast? = some c ∧
      seqProb sp tp ep (o0 :: (processed ++ [o])) ((pstep s0 rest tp ep o (Vf, Pf)).2 c) =
        (pstep s0 rest tp ep o (Vf, Pf)).1 c := by
  intro c hc
  obtain ⟨p, hp, hrm⟩ := rowMax_mem (fun p => Vf p * q2 tp p c * q2 ep c o) s0 rest
  obtain ⟨hmem, hlast, hattain⟩ := hinv p hp
  have h2 : (pstep s0 rest tp ep o (Vf, Pf)).2 c = Pf p ++ [c] := by
    simp only [pstep, hrm]
  have h1 : (pstep s0 rest tp ep o (Vf, Pf)).1 c = Vf p * q2 tp p c * q2 ep c o := by
    simp only [pstep, hrm]
  have hlen : (Pf p).length = processed.length + 1 := (mem_allSeqs_iff.mp hmem).1
  refine ⟨?_, ?_, ?_⟩
  · rw [h2]
    exact mem_allSeqs_concat hmem hc
  · rw [h2]
    exact List.getLast?_concat _
  · rw [h2, h1, seqProb_concat hlen, getLastD_of_getLast? hlast, hattain]
    ring

theorem ploop_shape (sp : Dict σ ℚ) (tp : Dict σ (Dict σ ℚ)) (ep : Dict σ (Dict γ ℚ))
    (s0 : σ) (rest : List σ) (o0 : γ) :
    ∀ (obsRest processed : List γ) (Vf : σ → ℚ) (Pf : σ → List σ),
      (∀ s ∈ s0 :: rest, Pf s ∈ allSeqs (s0 :: rest) (processed.length + 1) ∧
        (Pf s).getLast? = some s ∧ seqProb sp tp ep (o0 :: processed) (Pf s) = Vf s) →
      ∀ s ∈ s0 :: rest,
        (ploop s0 rest tp ep obsRest (Vf, Pf)).2 s ∈
          allSeqs (s0 :: rest) ((processed ++ obsRest).length + 1) ∧
        ((ploop s0 rest tp ep obsRest (Vf, Pf)).2 s).getLast? = some s ∧
        seqProb sp tp ep (o0 :: (processed ++ obsRest))
            ((ploop s0 rest tp ep obsRest (Vf, Pf)).2 s) =
          (ploop s0 rest tp ep obsRest (Vf, Pf)).1 s := by
  intro obsRest
  induction obsRest with
  | nil =>
    intro processed Vf Pf hinv s hs
    simpa [ploop] using hinv s hs
  | cons o os ih =>
    intro processed Vf Pf hinv s hs
    have hstep := pstep_shape o hinv
    have hstep' : ∀ s ∈ s0 :: rest,
        (pstep s0 rest tp ep o (Vf, Pf)).2 s ∈
          allSeqs (s0 :: rest) ((processed ++ [o]).length + 1) ∧
        ((pstep s0 rest tp ep o (Vf, Pf)).2 s).getLast? = some s ∧
        seqProb sp tp ep (o0 :: (processed ++ [o])) ((pstep s0 rest tp ep o (Vf, Pf)).2 s) =
          (pstep s0 rest tp ep o (Vf, Pf)).1 s := by
      intro s' hs'
      have h := hstep s' hs'
      simpa [List.length_append] using h
    have := ih (processed ++ [o]) (pstep s0 rest tp ep o (Vf, Pf)).1
      (pstep s0 rest tp ep o (Vf, Pf)).2 hstep' s hs
    have hassoc : processed ++ [o] ++ os = processed ++ (o :: os) := by
      simp
    rw [hassoc] at this
    simpa [ploop] using this

theorem pstep_bound {sp : Dict σ ℚ} {tp : Dict σ (Dict σ ℚ)} {ep : Dict σ (Dict γ ℚ)}
    {s0 : σ} {rest : List σ} {o0 : γ} (o : γ) {processed : List γ}
    {Vf : σ → ℚ} (Pf : σ → List σ)
    (htn : ∀ p c, 0 ≤ q2 tp p c) (hen : ∀ c o', 0 ≤ q2 ep c o')
    (hbd : ∀ s ∈ s0 :: rest, ∀ q ∈ allSeqs (s0 :: rest) (processed.length + 1),
      q.getLast? = some s → seqProb sp tp ep (o0 :: processed) q ≤ Vf s) :
    ∀ c ∈ s0 :: rest, ∀ q ∈ allSeqs (s0 :: rest) (processed.length + 2),
      q.getLast? = some c →
      seqProb sp tp ep (o0 :: (processed ++ [o])) q ≤ (pstep s0 rest tp ep o (Vf, Pf)).1 c := by
  intro c hc q hq hql
  obtain ⟨q', p, rfl, hq', hp, hq'l⟩ := allSeqs_decompose hq hql
  have hlen : q'.length = processed.length + 1 := (mem_allSeqs_iff.mp hq').1
  rw [seqProb_concat hlen, getLastD_of_getLast? hq'l]
  have hstep1 : seqProb sp tp ep (o0 :: processed) q' * (q2 tp p c * q2 ep c o) ≤
      Vf p * (q2 tp p c * q2 ep c o) :=
    mul_le_mul_of_nonneg_right (hbd p hp q' hq' hq'l)
      (mul_nonneg (htn p c) (hen c o))
  refine le_trans hstep1 ?_
  have : Vf p * (q2 tp p c * q2 ep c o) = Vf p * q2 tp p c * q2 ep c o := by ring
  rw [this]
  have hle := rowMax_le (fun p' => Vf p' * q2 tp p' c * q2 ep c o) s0 rest p hp
  simpa [pstep] using hle

theorem ploop_bound (sp : Dict σ ℚ) (tp : Dict σ (Dict σ ℚ)) (ep : Dict σ (Dict γ ℚ))
    (s0 : σ) (rest : List σ) (o0 : γ)
    (htn : ∀ p c, 0 ≤ q2 tp p c) (hen : ∀ c o', 0 ≤ q2 ep c o') :
    ∀ (obsRest processed : List γ) (Vf : σ → ℚ) (Pf : σ → List σ),
      (∀ s ∈ s0 :: rest, ∀ q ∈ allSeqs (s0 :: rest) (processed.length + 1),
        q.getLast? = some s → seqProb sp tp ep (o0 :: processed) q ≤ Vf s) →
      ∀ s ∈ s0 :: rest, ∀ q ∈ allSeqs (s0 :: rest) ((processed ++ obsRest).length + 1),
        q.getLast? = some s →
        seqProb sp tp ep (o0 :: (processed ++ obsRest)) q ≤
          (ploop s0 rest tp ep obsRest (Vf, Pf)).1 s := by
  intro obsRest
  induction obsRest with
  | nil =>
    intro processed Vf Pf hbd s hs q hq hql
    simp only [List.append_nil] at hq ⊢
    exact hbd s hs q hq hql
  | cons o os ih =>
    intro processed Vf Pf hbd s hs q hq hql
    have hstep := pstep_bound o Pf htn hen hbd
    have hstep' : ∀ s ∈ s0 :: rest, ∀ q ∈ allSeqs (s0 :: rest) ((processed ++ [o]).length + 1),
        q.getLast? = some s →
        seqProb sp tp ep (o0 :: (processed ++ [o])) q ≤ (pstep s0 rest tp ep o (Vf, Pf)).1 s := by
      intro s' hs' q' hq' hq'l
      refine hstep s' hs' q' ?_ hq'l
      simpa [List.length_append] using hq'
    have := ih (processed ++ [o]) (pstep s0 rest tp ep o (Vf, Pf)).1
      (pstep s0 rest tp ep o (Vf, Pf)).2 hstep' s hs
    have hassoc : processed ++ [o] ++ os = processed ++ (o :: os) := by simp
    rw [hassoc] at this
    have hq2 : q ∈ allSeqs (s0 :: rest) ((processed ++ (o :: os)).length + 1) := hq
    have := this q hq2 hql
    simpa [ploop] using this

theorem baseInv (sp : Dict σ ℚ) (tp : Dict σ (Dict σ ℚ)) (ep : Dict σ (Dict γ ℚ))
    (s0 : σ) (rest : List σ) (o0 : γ) :
    ∀ s ∈ s0 :: rest, ([s] : List σ) ∈ allSeqs (s0 :: rest) (([] : List γ).length + 1) ∧
      ([s] : List σ).getLast? = some s ∧
      seqProb sp tp ep (o0 :: ([] : List γ)) [s] = pvInit sp ep o0 s := by
  intro s hs
  refine ⟨?_, rfl, ?_⟩
  · exact mem_allSeqs_iff.mpr ⟨rfl, by simpa using hs⟩
  · simp [seqProb, trailProb, pvInit]

theorem baseBound (sp : Dict σ ℚ) (tp : Dict σ (Dict σ ℚ)) (ep : Dict σ (Dict γ ℚ))
    (s0 : σ) (rest : List σ) (o0 : γ) :
    ∀ s ∈ s0 :: rest, ∀ q ∈ allSeqs (s0 :: rest) (([] : List γ).length + 1),
      q.getLast? = some s →
      seqProb sp tp ep (o0 :: ([] : List γ)) q ≤ pvInit sp ep o0 s := by
  intro s hs q hq hql
  obtain ⟨x, rfl⟩ := List.length_eq_one.mp (mem_allSeqs_iff.mp hq).1
  have : x = s := by simpa using hql
  subst this
  have : seqProb sp tp ep (o0 :: ([] : List γ)) [x] = pvInit sp ep o0 x := by
    simp [seqProb, trailProb, pvInit]
  exact le_of_eq this

theorem pureViterbi_shape (o0 : γ) (os : List γ) (s0 : σ) (rest : List σ)
    (sp : Dict σ ℚ) (tp : Dict σ (Dict σ ℚ)) (ep : Dict σ (Dict γ ℚ)) :
    (pureViterbi o0 os s0 rest sp tp ep).2 ∈ allSeqs (s0 :: rest) (os.length + 1) ∧
    seqProb sp tp ep (o0 :: os) (pureViterbi o0 os s0 rest sp tp ep).2 =
      (pureViterbi o0 os s0 rest sp tp ep).1 := by
  have hsh := ploop_shape sp tp ep s0 rest o0 os [] (pvInit sp ep o0) (fun s => [s])
    (baseInv sp tp ep s0 rest o0)
  set vp := ploop s0 rest tp ep os (pvInit sp ep o0, fun s => [s]) with hvp
  have hfs := rowMax_snd_mem vp.1 s0 rest
  have hm := hsh (rowMax vp.1 s0 rest).2 hfs
  have h2 : (pureViterbi o0 os s0 rest sp tp ep).2 = vp.2 (rowMax vp.1 s0 rest).2 := by
    simp [pureViterbi, hvp]
  have h1 : (pureViterbi o0 os s0 rest sp tp ep).1 = (rowMax vp.1 s0 rest).1 := by
    simp [pureViterbi, hvp]
  constructor
  · rw [h2]
    simpa using hm.1
  · rw [h2, h1, rowMax_fst]
    simpa using hm.2.2

theorem pureViterbi_bound (o0 : γ) (os : List γ) (s0 : σ) (rest : List σ)
    (sp : Dict σ ℚ) (tp : Dict σ (Dict σ ℚ)) (ep : Dict σ (Dict γ ℚ))
    (htp : nonnegDD tp) (hep : nonnegDD ep) :
    ∀ q ∈ allSeqs (s0 :: rest) (os.length + 1),
      seqProb sp tp ep (o0 :: os) q ≤ (pureViterbi o0 os s0 rest sp tp ep).1 := by
  intro q hq
  have htn : ∀ p c, 0 ≤ q2 tp p c := fun p c => q2_nonneg htp p c
  have hen : ∀ c o', 0 ≤ q2 ep c o' := fun c o' => q2_nonneg hep c o'
  have hbd := ploop_bound sp tp ep s0 rest o0 htn hen os []
    (pvInit sp ep o0) (fun s => [s]) (baseBound sp tp ep s0 rest o0)
  set vp := ploop s0 rest tp ep os (pvInit sp ep o0, fun s => [s]) with hvp
  have hne : q ≠ [] := by
    intro h
    have := (mem_allSeqs_iff.mp hq).1
    rw [h] at this
    simp at this
  have hlastmem : q.getLast hne ∈ q := List.getLast_mem hne
  have hxs : q.getLast hne ∈ s0 :: rest := (mem_allSeqs_iff.mp hq).2 _ hlastmem
  have hql : q.getLast? = some (q.getLast hne) := List.getLast?_eq_getLast q hne
  have hb := hbd (q.getLast hne) hxs q (by simpa using hq) hql
  have h1 : (pureViterbi o0 os s0 rest sp tp ep).1 = (rowMax vp.1 s0 rest).1 := by
    simp [pureViterbi, hvp]
  rw [h1]
  refine le_trans (by simpa using hb) ?_
  exact rowMax_le vp.1 s0 rest _ hxs

end DPLemmas

section EdgeLemmas

variable {σ γ : Type} [DecidableEq σ] [LinearOrder σ] [DecidableEq γ]

theorem viterbiLoop_nil_states {tp : Dict σ (Dict σ ℚ)} {ep : Dict σ (Dict γ ℚ)} :
    ∀ (l : List γ), viterbiLoop ([] : List σ) tp ep l [] [] = .ok ([], []) := by
  intro l
  induction l with
  | nil => rfl
  | cons o os ih =>
    simp only [viterbiLoop, stepStates]
    exact ih

theorem viterbi_empty_states {obsL : List γ} {sp : Dict σ ℚ} {tp : Dict σ (Dict σ ℚ)}
    {ep : Dict σ (Dict γ ℚ)}
    (h : validate_input (.seq obsL) (.seq ([] : List σ)) sp tp ep = .ok ()) :
    viterbi (.seq obsL) (.seq ([] : List σ)) sp tp ep = .error .valueError := by
  simp only [viterbi, h, viterbiRun, initVPath, viterbiLoop_nil_states, finalCandidates, pyMax]

theorem viterbi_empty_obs {s0 : σ} {rest : List σ} {sp : Dict σ ℚ}
    {tp : Dict σ (Dict σ ℚ)} {ep : Dict σ (Dict γ ℚ)}
    (h : validate_input (.seq ([] : List γ)) (.seq (s0 :: rest)) sp tp ep = .ok ()) :
    viterbi (.seq ([] : List γ)) (.seq (s0 :: rest)) sp tp ep = .error .indexError := by
  obtain ⟨hsp, _, hep⟩ := validate_ok_present h
  obtain ⟨v, hv⟩ := hsp s0 (List.mem_cons_self _ _)
  obtain ⟨inner, hi, _⟩ := hep s0 (List.mem_cons_self _ _)
  simp only [viterbi, h, viterbiRun, initVPath, hv, hi, List.head?_nil]

theorem viterbi_of_validate_error {obs : SeqOrScalar γ} {sts : SeqOrScalar σ}
    {sp : Dict σ ℚ} {tp : Dict σ (Dict σ ℚ)} {ep : Dict σ (Dict γ ℚ)} {e : PyErr}
    (h : validate_input obs sts sp tp ep = .error e) :
    viterbi obs sts sp tp ep = .error e := by
  simp only [viterbi, h]

theorem validate_err1 {obs : SeqOrScalar γ} {sts : SeqOrScalar σ} {sp : Dict σ ℚ}
    {tp : Dict σ (Dict σ ℚ)} {ep : Dict σ (Dict γ ℚ)} (h : chk1 obs = false) :
    validate_input obs sts sp tp ep =
      .error (.assertionError "Observations must be a list or tuple.") := by
  cases obs with
  | seq l => simp [chk1, SeqOrScalar.isSeq] at h
  | scalar => rfl

theorem validate_err2 {obs : SeqOrScalar γ} {sts : SeqOrScalar σ} {sp : Dict σ ℚ}
    {tp : Dict σ (Dict σ ℚ)} {ep : Dict σ (Dict γ ℚ)}
    (h1 : chk1 obs = true) (h : chk2 sts = false) :
    validate_input obs sts sp tp ep =
      .error (.assertionError "States must be a list or tuple.") := by
  cases obs with
  | scalar => simp [chk1, SeqOrScalar.isSeq] at h1
  | seq l =>
    cases sts with
    | seq l' => simp [chk2, SeqOrScalar.isSeq] at h
    | scalar => rfl

theorem validate_err3 {obsL : List γ} {stsL : List σ} {sp : Dict σ ℚ}
    {tp : Dict σ (Dict σ ℚ)} {ep : Dict σ (Dict γ ℚ)}
    (h : chk3 (.seq stsL) sp = false) :
    validate_input (.seq obsL) (.seq stsL) sp tp ep =
      .error (.assertionError "Start probabilities must match states.") := by
  simp only [chk3] at h
  simp only [validate_input, h]
  rfl

theorem validate_err4 {obsL : List γ} {stsL : List σ} {sp : Dict σ ℚ}
    {tp : Dict σ (Dict σ ℚ)} {ep : Dict σ (Dict γ ℚ)}
    (h3 : chk3 (.seq stsL) sp = true) (h : chk4 (.seq stsL) tp = false) :
    validate_input (.seq obsL) (.seq stsL) sp tp ep =
      .error (.assertionError "Transition probabilities must match states.") := by
  simp only [chk3] at h3
  simp only [chk4] at h
  simp only [validate_input, h3, h]
  rfl

theorem validate_err5 {obsL : List γ} {stsL : List σ} {sp : Dict σ ℚ}
    {tp : Dict σ (Dict σ ℚ)} {ep : Dict σ (Dict γ ℚ)}
    (h3 : chk3 (.seq stsL) sp = true) (h4 : chk4 (.seq stsL) tp = true)
    (h : chk5 (.seq stsL) tp = false) :
    validate_input (.seq obsL) (.seq stsL) sp tp ep =
      .error (.assertionError "Transition probabilities must be defined for all states.") := by
  simp only [chk3] at h3
  simp only [chk4] at h4
  simp only [chk5] at h
  have htp : ∀ s ∈ stsL, ∃ inner, dlookup tp s = some inner := by
    intro s hs
    have : s ∈ dkeys tp := ((keysMatch_iff.mp h4) s).mpr hs
    exact Option.isSome_iff_exists.mp (dlookup_isSome_iff.mpr this)
  simp only [validate_input, h3, h4, allKeysEq_ok htp, h]
  rfl

theorem validate_err6 {obsL : List γ} {stsL : List σ} {sp : Dict σ ℚ}
    {tp : Dict σ (Dict σ ℚ)} {ep : Dict σ (Dict γ ℚ)}
    (h3 : chk3 (.seq stsL) sp = true) (h4 : chk4 (.seq stsL) tp = true)
    (h5 : chk5 (.seq stsL) tp = true) (h : chk6 (.seq stsL) ep = false) :
    validate_input (.seq obsL) (.seq stsL) sp tp ep =
      .error (.assertionError "Emission probabilities must match states.") := by
  simp only [chk3] at h3
  simp only [chk4] at h4
  simp only [chk5] at h5
  simp only [chk6] at h
  have htp : ∀ s ∈ stsL, ∃ inner, dlookup tp s = some inner := by
    intro s hs
    have : s ∈ dkeys tp := ((keysMatch_iff.mp h4) s).mpr hs
    exact Option.isSome_iff_exists.mp (dlookup_isSome_iff.mpr this)
  simp only [validate_input, h3, h4, allKeysEq_ok htp, h5, h]
  rfl

theorem validate_err7 {obsL : List γ} {stsL : List σ} {sp : Dict σ ℚ}
    {tp : Dict σ (Dict σ ℚ)} {ep : Dict σ (Dict γ ℚ)}
    (h3 : chk3 (.seq stsL) sp = true) (h4 : chk4 (.seq stsL) tp = true)
    (h5 : chk5 (.seq stsL) tp = true) (h6 : chk6 (.seq stsL) ep = true)
    (h : chk7 (.seq obsL) (.seq stsL) ep = false) :
    validate_input (.seq obsL) (.seq stsL) sp tp ep =
      .error (.assertionError "Emission probabilities must be defined for all observations.") := by
  simp only [chk3] at h3
  simp only [chk4] at h4
  simp only [chk5] at h5
  simp only [chk6] at h6
  simp only [chk7] at h
  have htp : ∀ s ∈ stsL, ∃ inner, dlookup tp s = some inner := by
    intro s hs
    have : s ∈ dkeys tp := ((keysMatch_iff.mp h4) s).mpr hs
    exact Option.isSome_iff_exists.mp (dlookup_isSome_iff.mpr this)
  have hepp : ∀ s ∈ stsL, ∃ inner, dlookup ep s = some inner := by
    intro s hs
    have : s ∈ dkeys ep := ((keysMatch_iff.mp h6) s).mpr hs
    exact Option.isSome_iff_exists.mp (dlookup_isSome_iff.mpr this)
  simp only [validate_input, h3, h4, allKeysEq_ok htp, h5, h6, allKeysEq_ok hepp, h]
  rfl

end EdgeLemmas

section ClaimTheorems

variable {σ γ : Type} [DecidableEq σ] [LinearOrder σ] [DecidableEq γ]

/-- C2: with states `(Rainy, Sunny)`, observations `(walk, shop, clean)`,
start `{Rainy: 0.6, Sunny: 0.4}`, transitions `{Rainy: {Rainy: 0.7,
Sunny: 0.3}, Sunny: {Rainy: 0.4, Sunny: 0.6}}` and emissions
`{Rainy: {walk: 0.1, shop: 0.4, clean: 0.5}, Sunny: {walk: 0.6, shop: 0.3,
clean: 0.1}}`, `viterbi` returns probability `0.01344` and path
`(Sunny, Rainy, Rainy)`. -/
theorem claim2_canonical_example :
    viterbi (.seq Ex.observations) (.seq Ex.states) Ex.start_prob Ex.trans_prob Ex.emit_prob
      = .ok (0.01344, ["Sunny", "Rainy", "Rainy"]) := by
  rw [exViterbiEval]
  norm_num

/-- C3 counterexample: a two-state model (states in order `0, 1`) with a
single observation in which both states tie; the claim says the earliest
state in the given order (`0`) is chosen, but `viterbi` returns the path
`[1]`. -/
theorem claim3_counterexample :
    viterbi (.seq Cx.obs3) (.seq Cx.sts3) Cx.start3 Cx.trans3 Cx.emit3 = .ok (1/2, [1]) ∧
    Cx.sts3.head? = some 0 ∧
    q1 Cx.start3 0 * q2 Cx.emit3 0 "x" = q1 Cx.start3 1 * q2 Cx.emit3 1 "x" ∧
    ([1] : List ℕ) ≠ [0] := by
  refine ⟨?_, rfl, by norm_num [q1, q2, dlookup, Cx.start3, Cx.emit3], by simp⟩
  norm_num [viterbi, validate_input, allKeysEq, keysMatch, dlookup, dkeys, viterbiRun,
    initVPath, viterbiLoop, stepStates, candidates, finalCandidates, pyMax, runMax, pairGtB,
    Cx.obs3, Cx.sts3, Cx.start3, Cx.trans3, Cx.emit3]

/-- C3 amended: both selections of the code (recurrence line 50–53 and
termination line 66) are Python `max` over `(probability, state)` pairs,
which picks the greatest pair lexicographically — among equal maximal
probabilities, the tying state with the *greatest* label, not the one
earliest in the given state order. -/
theorem claim3_amended_tiebreak :
    ∀ (l : List (ℚ × σ)) (m : ℚ × σ),
      pyMax l = .ok m ↔ (l ≠ [] ∧ m ∈ l ∧ ∀ z ∈ l, pairLe z m) := by
  intro l m
  constructor
  · intro h
    have hne : l ≠ [] := by
      intro he
      rw [he] at h
      simp [pyMax] at h
    obtain ⟨hm, hle⟩ := pyMax_ok h
    exact ⟨hne, hm, hle⟩
  · rintro ⟨hne, hm, hle⟩
    cases l with
    | nil => exact absurd rfl hne
    | cons x xs =>
      have h' : pyMax (x :: xs) = .ok (runMax x xs) := rfl
      obtain ⟨hm', hle'⟩ := pyMax_ok h'
      rw [h', pyMax_unique ⟨hm', hle'⟩ ⟨hm, hle⟩]

/-- C9: when candidates tie on the probability, the Python `max` over
`(probability, state)` pairs (used in both the recurrence and the
termination of `viterbi`) selects the tying state with the greatest label
under the label type's order, and the selection is independent of the
order in which the candidates are listed. -/
theorem claim9_tiebreak_max_label :
    ∀ (l : List (ℚ × σ)) (m : ℚ × σ), pyMax l = .ok m →
      (m ∈ l ∧ (∀ z ∈ l, z.1 ≤ m.1) ∧ (∀ z ∈ l, z.1 = m.1 → z.2 ≤ m.2)) ∧
      (∀ l', l.Perm l' → pyMax l' = .ok m) := by
  intro l m h
  obtain ⟨hm, hle⟩ := pyMax_ok h
  refine ⟨⟨hm, fun z hz => (hle z hz).1, fun z hz he => (hle z hz).2 he⟩, ?_⟩
  intro l' hp
  cases l' with
  | nil =>
    exfalso
    have := hp.length_eq
    simp only [List.length_nil] at this
    rw [List.length_eq_zero] at this
    rw [this] at hm
    simp at hm
  | cons x xs =>
    have h' : pyMax (x :: xs) = .ok (runMax x xs) := rfl
    obtain ⟨hm', hle'⟩ := pyMax_ok h'
    have hmm : m ∈ x :: xs := hp.subset hm
    have hbb : ∀ z ∈ x :: xs, pairLe z m := fun z hz => hle z (hp.symm.subset hz)
    rw [h', pyMax_unique ⟨hm', hle'⟩ ⟨hmm, hbb⟩]

/-- C10: `viterbi` leaves all five of its inputs unchanged: threading the
input state through every phase of the translated body (no source
statement assigns to a parameter, only to the locals `V`, `path`,
`new_path` and the scalars), the state after the call equals the state
before, and the returned value is exactly `viterbi`'s. -/
theorem claim10_inputs_unchanged :
    ∀ (st : PyState σ γ), (viterbiSt st).2 = st ∧
      (viterbiSt st).1 =
        viterbi st.observations st.states st.start_prob st.trans_prob st.emit_prob := by
  intro st
  constructor
  · unfold viterbiSt
    repeat' split
    all_goals rfl
  · unfold viterbiSt viterbi viterbiRun
    repeat' split
    all_goals rfl

/-- C4 counterexample: the empty state tuple (with all-empty tables and a
nonempty observation tuple) passes validation, yet `viterbi` fails at
runtime: the final `max` is taken over an empty generator and raises
`ValueError`. -/
theorem claim4_counterexample :
    validate_input (.seq Cx.obs4) (.seq Cx.sts4) ([] : Dict ℕ ℚ)
        ([] : Dict ℕ (Dict ℕ ℚ)) ([] : Dict ℕ (Dict String ℚ)) = .ok () ∧
    viterbi (.seq Cx.obs4) (.seq Cx.sts4) ([] : Dict ℕ ℚ)
        ([] : Dict ℕ (Dict ℕ ℚ)) ([] : Dict ℕ (Dict String ℚ)) = .error .valueError := by
  constructor <;> rfl

/-- C4 amended: once validation passes *and* the observation and state
sequences are nonempty, `viterbi` never fails at runtime: it returns a
result. -/
theorem claim4_amended_no_failure {o0 : γ} {os : List γ} {s0 : σ} {rest : List σ}
    {sp : Dict σ ℚ} {tp : Dict σ (Dict σ ℚ)} {ep : Dict σ (Dict γ ℚ)}
    (h : validate_input (.seq (o0 :: os)) (.seq (s0 :: rest)) sp tp ep = .ok ()) :
    ∃ r, viterbi (.seq (o0 :: os)) (.seq (s0 :: rest)) sp tp ep = .ok r :=
  ⟨_, viterbi_ok_eq h⟩

/-- C4 amended, witness: the canonical example passes validation and
`viterbi` returns a result on it. -/
theorem claim4_amended_witness :
    ∃ r, viterbi (.seq Ex.observations) (.seq Ex.states) Ex.start_prob Ex.trans_prob
      Ex.emit_prob = .ok r :=
  claim4_amended_no_failure (by rfl)

/-- C5 counterexample: an empty observation tuple together with matching
(empty-inner) emission tables passes validation — validation does *not*
fail with a `ValidationError` — and `viterbi` then dies on
`observations[0]` with an `IndexError` instead. -/
theorem claim5_counterexample :
    validate_input (.seq Cx.obs5) (.seq Cx.sts5) Cx.start5 Cx.trans5 Cx.emit5 = .ok () ∧
    viterbi (.seq Cx.obs5) (.seq Cx.sts5) Cx.start5 Cx.trans5 Cx.emit5 =
      .error .indexError := by
  constructor <;> rfl

/-- C5 amended: validation does not enforce non-emptiness; an empty
observation or state sequence can pass validation, and then `viterbi`
still returns no result — but it fails with an `IndexError` or
`ValueError`, not with a validation (assertion) error. -/
theorem claim5_amended_validation_empty {obsL : List γ} {stsL : List σ}
    {sp : Dict σ ℚ} {tp : Dict σ (Dict σ ℚ)} {ep : Dict σ (Dict γ ℚ)}
    (h : validate_input (.seq obsL) (.seq stsL) sp tp ep = .ok ())
    (hempty : obsL = [] ∨ stsL = []) :
    ∃ e, viterbi (.seq obsL) (.seq stsL) sp tp ep = .error e ∧
      ∀ msg, e ≠ .assertionError msg := by
  cases stsL with
  | nil =>
    exact ⟨.valueError, viterbi_empty_states h, fun msg => by simp⟩
  | cons s0 rest =>
    rcases hempty with h0 | h0
    · subst h0
      exact ⟨.indexError, viterbi_empty_obs h, fun msg => by simp⟩
    · simp at h0

/-- C5 amended, witness: the concrete empty-observations input. -/
theorem claim5_amended_witness :
    ∃ e, viterbi (.seq Cx.obs5) (.seq Cx.sts5) Cx.start5 Cx.trans5 Cx.emit5 = .error e ∧
      ∀ msg, e ≠ PyErr.assertionError msg :=
  claim5_amended_validation_empty (by rfl) (Or.inl rfl)

/-- C1 counterexample: validation does not check that the table values are
nonnegative, and with a negative emission value the dynamic program is not
optimal: on this validated input `viterbi` returns probability `-2` (path
`[1, 1, 1]`), while the state sequence `[0, 0, 0]` — one of the
`|states| ^ |observations|` candidates — has the larger product `-1`. -/
theorem claim1_counterexample :
    validate_input (.seq Cx.obs1) (.seq Cx.sts1) Cx.start1 Cx.trans1 Cx.emit1 = .ok () ∧
    viterbi (.seq Cx.obs1) (.seq Cx.sts1) Cx.start1 Cx.trans1 Cx.emit1 =
      .ok (-2, [1, 1, 1]) ∧
    ([0, 0, 0] : List ℕ) ∈ allSeqs Cx.sts1 Cx.obs1.length ∧
    seqProb Cx.start1 Cx.trans1 Cx.emit1 Cx.obs1 [0, 0, 0] = -1 ∧
    ((-2 : ℚ) < -1) := by
  refine ⟨by rfl, ?_, by decide, ?_, by norm_num⟩
  · norm_num [viterbi, validate_input, allKeysEq, keysMatch, dlookup, dkeys, viterbiRun,
      initVPath, viterbiLoop, stepStates, candidates, finalCandidates, pyMax, runMax, pairGtB,
      Cx.obs1, Cx.sts1, Cx.start1, Cx.trans1, Cx.emit1, strF₉, strF₁₀]
  · norm_num [seqProb, trailProb, q1, q2, dlookup, Cx.obs1, Cx.start1, Cx.trans1, Cx.emit1,
      strF₉, strF₁₀]

/-- C1 amended: for every input passing validation *whose table values are
all nonnegative*, the probability `viterbi` returns is the maximum of the
spec's product over all `|states| ^ |observations|` state sequences, and
the returned path attains it. -/
theorem claim1_amended_optimality {obsL : List γ} {stsL : List σ} {sp : Dict σ ℚ}
    {tp : Dict σ (Dict σ ℚ)} {ep : Dict σ (Dict γ ℚ)} {p : ℚ} {bp : List σ}
    (hv : validate_input (.seq obsL) (.seq stsL) sp tp ep = .ok ())
    (hsp : nonnegD sp) (htp : nonnegDD tp) (hep : nonnegDD ep)
    (h : viterbi (.seq obsL) (.seq stsL) sp tp ep = .ok (p, bp)) :
    (∀ q ∈ allSeqs stsL obsL.length, seqProb sp tp ep obsL q ≤ p) ∧
    bp ∈ allSeqs stsL obsL.length ∧ seqProb sp tp ep obsL bp = p := by
  cases stsL with
  | nil => rw [viterbi_empty_states hv] at h; cases h
  | cons s0 rest =>
    cases obsL with
    | nil => rw [viterbi_empty_obs hv] at h; cases h
    | cons o0 os =>
      rw [viterbi_ok_eq hv] at h
      injection h with h
      have h1 : p = (pureViterbi o0 os s0 rest sp tp ep).1 := by rw [h]
      have h2 : bp = (pureViterbi o0 os s0 rest sp tp ep).2 := by rw [h]
      have hsh := pureViterbi_shape o0 os s0 rest sp tp ep
      have hbd := pureViterbi_bound o0 os s0 rest sp tp ep htp hep
      refine ⟨?_, ?_, ?_⟩
      · intro q hq
        rw [h1]
        exact hbd q (by simpa using hq)
      · rw [h2]
        simpa using hsh.1
      · rw [h1, h2]
        exact hsh.2

/-- C1 amended, witness: the optimality conclusion at the canonical
example, whose tables are nonnegative and whose maximum is `0.01344`. -/
theorem claim1_amended_witness :
    (∀ q ∈ allSeqs Ex.states Ex.observations.length,
      seqProb Ex.start_prob Ex.trans_prob Ex.emit_prob Ex.observations q ≤ 1344/100000) ∧
    (["Sunny", "Rainy", "Rainy"] : List String) ∈ allSeqs Ex.states Ex.observations.length ∧
    seqProb Ex.start_prob Ex.trans_prob Ex.emit_prob Ex.observations
      ["Sunny", "Rainy", "Rainy"] = 1344/100000 :=
  claim1_amended_optimality (by rfl)
    (by
      intro kv hkv
      simp only [Ex.start_prob, List.mem_cons, List.not_mem_nil, or_false] at hkv
      rcases hkv with rfl | rfl <;> norm_num)
    (by
      intro kv hkv
      simp only [Ex.trans_prob, List.mem_cons, List.not_mem_nil, or_false] at hkv
      rcases hkv with rfl | rfl <;>
        (intro kv' hkv'
         simp only [List.mem_cons, List.not_mem_nil, or_false] at hkv'
         rcases hkv' with rfl | rfl <;> norm_num))
    (by
      intro kv hkv
      simp only [Ex.emit_prob, List.mem_cons, List.not_mem_nil, or_false] at hkv
      rcases hkv with rfl | rfl <;>
        (intro kv' hkv'
         simp only [List.mem_cons, List.not_mem_nil, or_false] at hkv'
         rcases hkv' with rfl | rfl | rfl <;> norm_num))
    exViterbiEval

/-- C6: for each of the seven structural checks, an input violating exactly
that check makes `viterbi` fail with the assertion (validation) error
identifying that condition — so no path is returned — and an input
satisfying all seven checks passes validation. -/
theorem claim6_validation_checks :
    ∀ (obs : SeqOrScalar γ) (sts : SeqOrScalar σ) (sp : Dict σ ℚ)
      (tp : Dict σ (Dict σ ℚ)) (ep : Dict σ (Dict γ ℚ)),
      (chk1 obs = false ∧ chk2 sts = true ∧ chk3 sts sp = true ∧ chk4 sts tp = true ∧
          chk5 sts tp = true ∧ chk6 sts ep = true ∧ chk7 obs sts ep = true →
        viterbi obs sts sp tp ep =
          .error (.assertionError "Observations must be a list or tuple.")) ∧
      (chk1 obs = true ∧ chk2 sts = false ∧ chk3 sts sp = true ∧ chk4 sts tp = true ∧
          chk5 sts tp = true ∧ chk6 sts ep = true ∧ chk7 obs sts ep = true →
        viterbi obs sts sp tp ep =
          .error (.assertionError "States must be a list or tuple.")) ∧
      (chk1 obs = true ∧ chk2 sts = true ∧ chk3 sts sp = false ∧ chk4 sts tp = true ∧
          chk5 sts tp = true ∧ chk6 sts ep = true ∧ chk7 obs sts ep = true →
        viterbi obs sts sp tp ep =
          .error (.assertionError "Start probabilities must match states.")) ∧
      (chk1 obs = true ∧ chk2 sts = true ∧ chk3 sts sp = true ∧ chk4 sts tp = false ∧
          chk5 sts tp = true ∧ chk6 sts ep = true ∧ chk7 obs sts ep = true →
        viterbi obs sts sp tp ep =
          .error (.assertionError "Transition probabilities must match states.")) ∧
      (chk1 obs = true ∧ chk2 sts = true ∧ chk3 sts sp = true ∧ chk4 sts tp = true ∧
          chk5 sts tp = false ∧ chk6 sts ep = true ∧ chk7 obs sts ep = true →
        viterbi obs sts sp tp ep =
          .error (.assertionError "Transition probabilities must be defined for all states.")) ∧
      (chk1 obs = true ∧ chk2 sts = true ∧ chk3 sts sp = true ∧ chk4 sts tp = true ∧
          chk5 sts tp = true ∧ chk6 sts ep = false ∧ chk7 obs sts ep = true →
        viterbi obs sts sp tp ep =
          .error (.assertionError "Emission probabilities must match states.")) ∧
      (chk1 obs = true ∧ chk2 sts = true ∧ chk3 sts sp = true ∧ chk4 sts tp = true ∧
          chk5 sts tp = true ∧ chk6 sts ep = true ∧ chk7 obs sts ep = false →
        viterbi obs sts sp tp ep =
          .error (.assertionError "Emission probabilities must be defined for all observations.")) ∧
      (chk1 obs = true ∧ chk2 sts = true ∧ chk3 sts sp = true ∧ chk4 sts tp = true ∧
          chk5 sts tp = true ∧ chk6 sts ep = true ∧ chk7 obs sts ep = true →
        validate_input obs sts sp tp ep = .ok ()) := by
  intro obs sts sp tp ep
  refine ⟨?_, ?_, ?_, ?_, ?_, ?_, ?_, ?_⟩
  · rintro ⟨h1, -, -, -, -, -, -⟩
    exact viterbi_of_validate_error (validate_err1 h1)
  · rintro ⟨h1, h2, -, -, -, -, -⟩
    exact viterbi_of_validate_error (validate_err2 h1 h2)
  · rintro ⟨h1, h2, h3, -, -, -, -⟩
    cases obs with
    | scalar => simp [chk1, SeqOrScalar.isSeq] at h1
    | seq obsL =>
      cases sts with
      | scalar => simp [chk2, SeqOrScalar.isSeq] at h2
      | seq stsL => exact viterbi_of_validate_error (validate_err3 h3)
  · rintro ⟨h1, h2, h3, h4, -, -, -⟩
    cases obs with
    | scalar => simp [chk1, SeqOrScalar.isSeq] at h1
    | seq obsL =>
      cases sts with
      | scalar => simp [chk2, SeqOrScalar.isSeq] at h2
      | seq stsL => exact viterbi_of_validate_error (validate_err4 h3 h4)
  · rintro ⟨h1, h2, h3, h4, h5, -, -⟩
    cases obs with
    | scalar => simp [chk1, SeqOrScalar.isSeq] at h1
    | seq obsL =>
      cases sts with
      | scalar => simp [chk2, SeqOrScalar.isSeq] at h2
      | seq stsL => exact viterbi_of_validate_error (validate_err5 h3 h4 h5)
  · rintro ⟨h1, h2, h3, h4, h5, h6, -⟩
    cases obs with
    | scalar => simp [chk1, SeqOrScalar.isSeq] at h1
    | seq obsL =>
      cases sts with
      | scalar => simp [chk2, SeqOrScalar.isSeq] at h2
      | seq stsL => exact viterbi_of_validate_error (validate_err6 h3 h4 h5 h6)
  · rintro ⟨h1, h2, h3, h4, h5, h6, h7⟩
    cases obs with
    | scalar => simp [chk1, SeqOrScalar.isSeq] at h1
    | seq obsL =>
      cases sts with
      | scalar => simp [chk2, SeqOrScalar.isSeq] at h2
      | seq stsL => exact viterbi_of_validate_error (validate_err7 h3 h4 h5 h6 h7)
  · rintro ⟨h1, h2, h3, h4, h5, h6, h7⟩
    cases obs with
    | scalar => simp [chk1, SeqOrScalar.isSeq] at h1
    | seq obsL =>
      cases sts with
      | scalar => simp [chk2, SeqOrScalar.isSeq] at h2
      | seq stsL => exact validate_seq_ok_iff.mpr ⟨h3, h4, h5, h6, h7⟩

/-- C6 witness: a table violating exactly check 3 (empty start table
against the state set `{0}`) raises the start-keys assertion. -/
theorem claim6_witness :
    viterbi (.seq Cx.obs4) (.seq Cx.sts5) Cx.start6 Cx.trans6 Cx.emit6 =
      .error (.assertionError "Start probabilities must match states.") :=
  (claim6_validation_checks (.seq Cx.obs4) (.seq Cx.sts5) Cx.start6 Cx.trans6
    Cx.emit6).2.2.1 ⟨rfl, rfl, rfl, rfl, rfl, rfl, rfl⟩

/-- C7: for every input on which `viterbi` returns, the returned path has
the same length as the observation sequence. -/
theorem claim7_path_length {obsL : List γ} {stsL : List σ} {sp : Dict σ ℚ}
    {tp : Dict σ (Dict σ ℚ)} {ep : Dict σ (Dict γ ℚ)} {p : ℚ} {bp : List σ}
    (h : viterbi (.seq obsL) (.seq stsL) sp tp ep = .ok (p, bp)) :
    bp.length = obsL.length := by
  cases hv : validate_input (.seq obsL) (.seq stsL) sp tp ep with
  | error e => rw [viterbi_of_validate_error hv] at h; cases h
  | ok u =>
    cases u
    cases stsL with
    | nil => rw [viterbi_empty_states hv] at h; cases h
    | cons s0 rest =>
      cases obsL with
      | nil => rw [viterbi_empty_obs hv] at h; cases h
      | cons o0 os =>
        rw [viterbi_ok_eq hv] at h
        injection h with h
        have h2 : bp = (pureViterbi o0 os s0 rest sp tp ep).2 := by rw [h]
        have hsh := pureViterbi_shape o0 os s0 rest sp tp ep
        rw [h2]
        have := (mem_allSeqs_iff.mp hsh.1).1
        simpa using this

/-- C7 witness: on the canonical example the returned path has length 3,
the length of the observation tuple. -/
theorem claim7_witness :
    (["Sunny", "Rainy", "Rainy"] : List String).length = Ex.observations.length :=
  claim7_path_length exViterbiEval

/-- C8: on every validated input whose table values all lie in `[0, 1]`,
the probability `viterbi` returns lies in `[0, 1]`. -/
theorem claim8_prob_bounded {obsL : List γ} {stsL : List σ} {sp : Dict σ ℚ}
    {tp : Dict σ (Dict σ ℚ)} {ep : Dict σ (Dict γ ℚ)} {p : ℚ} {bp : List σ}
    (hv : validate_input (.seq obsL) (.seq stsL) sp tp ep = .ok ())
    (hsp : boundedD sp) (htp : boundedDD tp) (hep : boundedDD ep)
    (h : viterbi (.seq obsL) (.seq stsL) sp tp ep = .ok (p, bp)) :
    0 ≤ p ∧ p ≤ 1 := by
  cases stsL with
  | nil => rw [viterbi_empty_states hv] at h; cases h
  | cons s0 rest =>
    cases obsL with
    | nil => rw [viterbi_empty_obs hv] at h; cases h
    | cons o0 os =>
      rw [viterbi_ok_eq hv] at h
      injection h with h
      have h1 : p = (pureViterbi o0 os s0 rest sp tp ep).1 := by rw [h]
      have hsh := pureViterbi_shape o0 os s0 rest sp tp ep
      rw [h1, ← hsh.2]
      exact seqProb_bounded hsp htp hep _ _

/-- C8 witness: the canonical example's tables lie in `[0, 1]` and its
returned probability `0.01344` lies in `[0, 1]`. -/
theorem claim8_witness : (0 : ℚ) ≤ 1344/100000 ∧ (1344/100000 : ℚ) ≤ 1 :=
  claim8_prob_bounded (by rfl)
    (by
      intro kv hkv
      simp only [Ex.start_prob, List.mem_cons, List.not_mem_nil, or_false] at hkv
      rcases hkv with rfl | rfl <;> norm_num)
    (by
      intro kv hkv
      simp only [Ex.trans_prob, List.mem_cons, List.not_mem_nil, or_false] at hkv
      rcases hkv with rfl | rfl <;>
        (intro kv' hkv'
         simp only [List.mem_cons, List.not_mem_nil, or_false] at hkv'
         rcases hkv' with rfl | rfl <;> norm_num))
    (by
      intro kv hkv
      simp only [Ex.emit_prob, List.mem_cons, List.not_mem_nil, or_false] at hkv
      rcases hkv with rfl | rfl <;>
        (intro kv' hkv'
         simp only [List.mem_cons, List.not_mem_nil, or_false] at hkv'
         rcases hkv' with rfl | rfl | rfl <;> norm_num))
    exViterbiEval

/-- C9 witness: on the tied candidate list `[(1, 0), (1, 1)]` the selected
pair is `(1, 1)` — the greatest label among the tie — it bounds every
candidate, and any permutation of the candidates yields the same pair. -/
theorem claim9_witness :
    (((1 : ℚ), (1 : ℕ)) ∈ [((1 : ℚ), (0 : ℕ)), (1, 1)] ∧
      (∀ z ∈ [((1 : ℚ), (0 : ℕ)), (1, 1)], z.1 ≤ (1 : ℚ)) ∧
      (∀ z ∈ [((1 : ℚ), (0 : ℕ)), (1, 1)], z.1 = (1 : ℚ) → z.2 ≤ (1 : ℕ))) ∧
    (∀ l', ([((1 : ℚ), (0 : ℕ)), (1, 1)]).Perm l' → pyMax l' = .ok (1, 1)) :=
  claim9_tiebreak_max_label [((1 : ℚ), (0 : ℕ)), (1, 1)] (1, 1) (by rfl)

end ClaimTheorems

end HMM
